import Mathlib

/-!
Rotating file writer of `ninepeach/logger`.

A shallow embedding of `filelog.go` (the `FileLogger` writer: `setLimit`,
`setMaxNumFiles`, `logDirect`, `logPurge`, `Write`) and of `log.go` (the two
administrative passthroughs, `NewStdLogger` and the severity methods),
followed by theorems about them.

Conventions of the embedding.

* A Go string or byte slice is the list of its bytes, each byte written as a
  `Char`; `len` is `List.length`. Every literal of the source is ASCII.
* The operating system is explicit: `Env` gives the outcome of every call the
  code makes (`Write`, `Close`, `os.Rename`, `os.OpenFile`, `os.ReadDir`,
  `os.Remove`, `time.Now`), `World` is the log directory together with the
  trace of the calls made so far.
* The `int64` counters are unbounded integers: a wrap would need a log file of
  more than `2^62` bytes.
* `sync.Mutex` is not reentrant. `FileLogger.Write` holds the writer's mutex to
  the end of the call (`defer fl.Unlock()`), and so does `setLimit`; a call of
  `fl.logger.Noticef` made meanwhile goes through the `log.Logger` that
  `NewFileLogger` builds on the writer itself (`log.New(fl, ...)`), re-enters
  `FileLogger.Write` with rotation enabled and waits for that mutex for ever.
  Results therefore carry a flag `returns` (or an optional return value); the
  state they carry is the state at the point where the call stopped. The flag
  is false as well after a panic (an index past the end of a slice).
-/

namespace FileLog

/-! ## Strings, formatting verbs and library functions -/

/-- Go string: its bytes in order. -/
abbrev GoString := List Char

/-- Go error value, identified with the text of `Error()`. -/
abbrev GoError := GoString

/-- Result of `fmt.Errorf(msg ++ "%w", err)`: the text before the verb followed
by the text of the wrapped error. -/
def errorfWrap (msg : String) (err : GoError) : GoError := msg.toList ++ err

/-- Go's `<` on strings: byte-wise lexicographic order, the order in which
`os.ReadDir` returns the entries of a directory. -/
def strLess : GoString → GoString → Bool
  | [], [] => false
  | [], _ :: _ => true
  | _ :: _, [] => false
  | a :: as, b :: bs =>
    if a.toNat < b.toNat then true
    else if b.toNat < a.toNat then false
    else strLess as bs

/-- The function `strings.HasPrefix`. -/
def hasPrefix : GoString → GoString → Bool
  | _, [] => true
  | [], _ :: _ => false
  | a :: as, p :: ps => if a = p then hasPrefix as ps else false

/-- The function `strings.CutPrefix`: the rest of the string after the given
beginning, when the string starts with it. -/
def cutPrefix : GoString → GoString → Option GoString
  | s, [] => some s
  | [], _ :: _ => none
  | a :: as, p :: ps => if a = p then cutPrefix as ps else none

/-- The call `strings.Replace(s, old, new, n)` for one-byte `old` and `new`:
the first `n` occurrences are replaced. -/
def replaceN (old new : Char) : Nat → GoString → GoString
  | 0, s => s
  | _ + 1, [] => []
  | n + 1, c :: s => if c = old then new :: replaceN old new n s else c :: replaceN old new (n + 1) s

/-- The `w` low-order decimal digits of `n`, most significant first. -/
def digitsFixed : Nat → Nat → GoString
  | 0, _ => []
  | w + 1, n => digitsFixed w (n / 10) ++ [Nat.digitChar (n % 10)]

/-- The verb `%0wd` of `fmt` on a non-negative integer: decimal digits, padded
with zeros on the left to at least `w` characters. -/
def fmtZeroPad (w n : Nat) : GoString :=
  if n < 10 ^ w then digitsFixed w n else Nat.toDigits 10 n

/-- The verb `%v` of `fmt` on an `int64`. -/
def fmtInt (i : Int) : GoString :=
  if i < 0 then '-' :: Nat.toDigits 10 i.natAbs else Nat.toDigits 10 i.toNat

/-- The function `filepath.Base` (Unix): the last element of the path, after
removal of trailing separators. -/
def filepathBase (path : GoString) : GoString :=
  if path = [] then ['.']
  else
    let stripped := (path.reverse.dropWhile (fun c => c = '/')).reverse
    let last := (stripped.reverse.takeWhile (fun c => c ≠ '/')).reverse
    if last = [] then ['/'] else last

/-- A reading of the clock, by the components `time.Time` reports. -/
structure Time where
  year : Nat
  month : Nat
  day : Nat
  hour : Nat
  minute : Nat
  second : Nat
  nanosecond : Nat
deriving DecidableEq

/-! ### `time.Parse` against the layout of `logPurge`

`time.Parse("2006:01:02:15:04:05.999999999", value)` after the Go standard
library (`time/format.go`, function `parse`), specialised to this layout: the
chunks are `2006`, `:01`, `:02`, `:15`, `:04`, `:05`, `.999999999`. -/

/-- The helper `isDigit` of `time/format.go`. -/
def isDigit (c : Char) : Bool := decide (48 ≤ c.toNat) && decide (c.toNat ≤ 57)

/-- Value of a decimal digit. -/
def digitVal (c : Char) : Nat := c.toNat - 48

/-- The helper `getnum` of `time/format.go`: one or two digits, exactly two
when `fixed`. -/
def getnum (s : GoString) (fixed : Bool) : Option (Nat × GoString) :=
  match s with
  | [] => none
  | a :: rest =>
    if !isDigit a then none
    else
      match rest with
      | [] => if fixed then none else some (digitVal a, [])
      | b :: rest2 =>
        if isDigit b then some (digitVal a * 10 + digitVal b, rest2)
        else if fixed then none
        else some (digitVal a, rest)

/-- Chunk `2006` (`stdLongYear`): exactly four digits. -/
def getLongYear (s : GoString) : Option (Nat × GoString) :=
  match s with
  | a :: b :: c :: d :: rest =>
    if isDigit a && isDigit b && isDigit c && isDigit d then
      some (digitVal a * 1000 + digitVal b * 100 + digitVal c * 10 + digitVal d, rest)
    else none
  | _ => none

/-- The helper `skip` of `time/format.go` for the literal `:` of the layout. -/
def skipColon (s : GoString) : Option GoString :=
  match s with
  | c :: rest => if c = ':' then some rest else none
  | [] => none

/-- Decimal value of a string of digits. -/
def digitsVal (ds : GoString) : Nat := ds.foldl (fun acc c => acc * 10 + digitVal c) 0

/-- Chunk `.999999999` (`stdFracSecond9`): the fraction may be left out; when
present it starts with a period or a comma and takes every digit that
follows. Returns the nanoseconds and the rest of the value. -/
def getFrac (s : GoString) : Nat × GoString :=
  match s with
  | c :: d :: rest =>
    if (c = '.' ∨ c = ',') ∧ isDigit d = true then
      let ds := (d :: rest).takeWhile isDigit
      let ds9 := ds.take 9
      (digitsVal ds9 * 10 ^ (9 - ds9.length), (d :: rest).dropWhile isDigit)
    else (0, s)
  | _ => (0, s)

/-- The helper `isLeap` of package `time`. -/
def isLeap (year : Nat) : Bool :=
  decide (year % 4 = 0) && (decide (year % 100 ≠ 0) || decide (year % 400 = 0))

/-- The helper `daysIn` of package `time`. -/
def daysIn (month year : Nat) : Nat :=
  if month = 2 then (if isLeap year then 29 else 28)
  else if month = 4 ∨ month = 6 ∨ month = 9 ∨ month = 11 then 30
  else 31

/-- The call `time.Parse("2006:01:02:15:04:05.999999999", value)`: the time
read, or `none` when `Parse` returns an error. -/
def timeParse (value : GoString) : Option Time := do
  let (year, v) ← getLongYear value
  let v ← skipColon v
  let (month, v) ← getnum v true
  if month = 0 ∨ 12 < month then none
  let v ← skipColon v
  let (day, v) ← getnum v true
  let v ← skipColon v
  let (hour, v) ← getnum v false
  if 24 ≤ hour then none
  let v ← skipColon v
  let (minute, v) ← getnum v true
  if 60 ≤ minute then none
  let v ← skipColon v
  let (second, v) ← getnum v true
  if 60 ≤ second then none
  let (nsec, v) := getFrac v
  if v ≠ [] then none
  if day < 1 ∨ daysIn month year < day then none
  some ⟨year, month, day, hour, minute, second, nsec⟩

/-- The layout `%04d/%02d/%02d %02d:%02d:%02d.%06d ` of `logDirect`, applied to
a reading of the clock. -/
def lineStamp (now : Time) : GoString :=
  fmtZeroPad 4 now.year ++ ['/'] ++ fmtZeroPad 2 now.month ++ ['/'] ++ fmtZeroPad 2 now.day ++ [' ']
    ++ fmtZeroPad 2 now.hour ++ [':'] ++ fmtZeroPad 2 now.minute ++ [':'] ++ fmtZeroPad 2 now.second
    ++ ['.'] ++ fmtZeroPad 6 (now.nanosecond / 1000) ++ [' ']

/-- The layout `%s.%04d.%02d.%02d.%02d.%02d.%02d.%09d` of `Write`: the name
under which the log file is saved at a rotation. -/
def backupName (fname : GoString) (now : Time) : GoString :=
  fname ++ ['.'] ++ fmtZeroPad 4 now.year ++ ['.'] ++ fmtZeroPad 2 now.month ++ ['.']
    ++ fmtZeroPad 2 now.day ++ ['.'] ++ fmtZeroPad 2 now.hour ++ ['.'] ++ fmtZeroPad 2 now.minute
    ++ ['.'] ++ fmtZeroPad 2 now.second ++ ['.'] ++ fmtZeroPad 9 now.nanosecond

/-! ## Data model -/

/-- The fields of `Logger` (`log.go`) that the file writer and the severity
methods read: the two flags and the six labels. -/
structure Logger where
  debug : Bool
  trace : Bool
  infoLabel : GoString
  warnLabel : GoString
  errorLabel : GoString
  fatalLabel : GoString
  debugLabel : GoString
  traceLabel : GoString
deriving DecidableEq

/-- The function `setPlainLabelFormats` of `log.go`. -/
def setPlainLabelFormats (l : Logger) : Logger :=
  { l with
    infoLabel := "[INF] ".toList
    debugLabel := "[DBG] ".toList
    warnLabel := "[WRN] ".toList
    errorLabel := "[ERR] ".toList
    fatalLabel := "[FTL] ".toList
    traceLabel := "[TRC] ".toList }

/-- The function `setColoredLabelFormats` of `log.go`: each label is
`[ESC[<code>m<name>ESC[0m] `, with `ESC` the character 27. -/
def setColoredLabelFormats (l : Logger) : Logger :=
  let color := fun (code name : String) =>
    ['[', Char.ofNat 27, '['] ++ code.toList ++ ['m'] ++ name.toList
      ++ [Char.ofNat 27, '[', '0', 'm', ']', ' ']
  { l with
    infoLabel := color "32" "INF"
    debugLabel := color "36" "DBG"
    warnLabel := color "0;93" "WRN"
    errorLabel := color "31" "ERR"
    fatalLabel := color "31" "FTL"
    traceLabel := color "33" "TRC" }

/-- A handle (`writerAndCloser`): the path it was opened with, returned by
`Name()`, the bytes appended through it since it was opened, and whether
`Close` has been called on it. -/
structure File where
  name : GoString
  written : GoString
  closed : Bool
deriving DecidableEq

/-- Entry of a directory, as `os.ReadDir` reports it. -/
structure DirEntry where
  name : GoString
  isDir : Bool
deriving DecidableEq

/-- A call to the operating system, with the error it returned (`none` for a
nil error). -/
inductive Event where
  | close (name : GoString) (err : Option GoError)
  | rename (oldpath newpath : GoString) (err : Option GoError)
  | openFile (name : GoString) (err : Option GoError)
  | readDir (dir : GoString) (err : Option GoError)
  | remove (dir name : GoString) (err : Option GoError)
deriving DecidableEq

/-- The part of the outside world the writer acts on: the entries of the
directory of the log file, in the order `os.ReadDir` lists them (ascending by
name), the number of readings of the clock taken so far, and the calls made so
far, oldest first. -/
structure World where
  dir : List DirEntry
  ticks : Nat
  events : List Event
deriving DecidableEq

/-- Outcomes of the calls into the operating system and the library.
`write f b` is `none` when the handle accepts all of `b` and returns a nil
error, `some (n, err)` when it accepts `n` bytes and returns `err` (the
contract of `io.Writer`: an error is returned whenever fewer than `len(b)`
bytes are written); the other calls give the error they return. `now k` is the
reading of `time.Now()` number `k`; `quote` is the verb `%q` of `fmt`; `dirOf`
is `filepath.Dir`; `statSize` is the size `Stat` reports; `getpid` is
`os.Getpid()`. -/
structure Env where
  write : File → GoString → Option (Nat × GoError)
  close : File → Option GoError
  rename : GoString → GoString → Option GoError
  openFile : GoString → Option GoError
  readDir : GoString → Option GoError
  remove : GoString → GoString → Option GoError
  statSize : GoString → Except GoError Nat
  now : Nat → Time
  quote : GoString → GoString
  dirOf : GoString → GoString
  getpid : Nat

/-- The struct `FileLogger` of `filelog.go` (the mutex apart). The flag
`isRotationAllowed` is the `int32` that holds 0 or 1. -/
structure FileLogger where
  currentSize : Int
  isRotationAllowed : Bool
  logger : Logger
  file : File
  rotationLimit : Int
  originalRotationLimit : Int
  processIDPrefix : GoString
  includeTimestamp : Bool
  isClosed : Bool
  maxBackupFiles : Int
deriving DecidableEq

/-! ## The world: effects of the calls -/

/-- Bytes appended through a handle. -/
def File.append (f : File) (b : GoString) : File :=
  { f with written := f.written ++ b }

/-- The handle after a call to `Close`. -/
def File.close (f : File) : File :=
  { f with closed := true }

/-- A call is added to the trace. -/
def World.record (w : World) (e : Event) : World :=
  { w with events := w.events ++ [e] }

/-- Insertion of an entry at its place in a listing ordered by name. -/
def insertEntry (e : DirEntry) : List DirEntry → List DirEntry
  | [] => [e]
  | x :: xs => if strLess x.name e.name then x :: insertEntry e xs else e :: x :: xs

/-- The entries whose name is not `name`. -/
def removeEntry (name : GoString) (dir : List DirEntry) : List DirEntry :=
  dir.filter (fun e => e.name ≠ name)

/-- Effect on the directory of a successful `os.Rename(oldpath, newpath)` of a
file inside it. -/
def World.renamed (w : World) (oldpath newpath : GoString) : World :=
  let rest := removeEntry (filepathBase newpath) (removeEntry (filepathBase oldpath) w.dir)
  { w with dir := insertEntry ⟨filepathBase newpath, false⟩ rest }

/-- Effect on the directory of a successful `os.OpenFile` with `O_CREATE`: the
file exists afterwards. -/
def World.created (w : World) (path : GoString) : World :=
  if (w.dir.map (fun e => e.name)).contains (filepathBase path) then w
  else { w with dir := insertEntry ⟨filepathBase path, false⟩ w.dir }

/-- Effect on the directory of a successful `os.Remove` of the entry `name`. -/
def World.removed (w : World) (name : GoString) : World :=
  { w with dir := removeEntry name w.dir }

/-! ## The writer: `filelog.go` -/

/-- Result of `setLimit`; `returns` is false when the call never returns to
its caller. -/
structure LimitResult where
  returns : Bool
  fl : FileLogger

/-- Result of `logPurge`, with the writer and the world after the call. -/
structure PurgeResult where
  returns : Bool
  fl : FileLogger
  w : World

/-- Result of `logDirect`: the value `len(logEntry)` it returns, with the
writer and the world after the call. -/
structure DirectResult where
  returns : Bool
  n : Nat
  fl : FileLogger
  w : World

/-- Result of `FileLogger.Write`: the pair `(n, err)` it returns, or `none`
when the call never returns, with the writer and the world after the call. -/
structure WriteResult where
  ret : Option (Nat × Option GoError)
  fl : FileLogger
  w : World

/-- The function `newFileLogger`: the file is opened (created when absent)
and the counter is seeded with the size `Stat` reports. The field `logger` is
set by `NewFileLogger`. -/
def newFileLogger (env : Env) (w : World) (filename processIDPrefix : GoString)
    (includeTimestamp : Bool) : Except GoError (FileLogger × World) :=
  match env.openFile filename with
  | some err =>
    .error ("unable to open log file ".toList ++ env.quote filename ++ ": ".toList ++ err)
  | none =>
    let w := (w.created filename).record (.openFile filename none)
    match env.statSize filename with
    | .error err =>
      .error ("unable to get file stats for ".toList ++ env.quote filename ++ ": ".toList ++ err)
    | .ok size =>
      .ok ({ currentSize := size
             isRotationAllowed := false
             logger := ⟨false, false, [], [], [], [], [], []⟩
             file := ⟨filename, [], false⟩
             rotationLimit := 0
             originalRotationLimit := 0
             processIDPrefix := processIDPrefix
             includeTimestamp := includeTimestamp
             isClosed := false
             maxBackupFiles := 0 }, w)

/-- The function `pidPrefix` of `log.go`. -/
def pidPrefix (env : Env) : GoString :=
  ['['] ++ Nat.toDigits 10 env.getpid ++ [']', ' ']

/-- The constructor `NewFileLogger` of `log.go`, seen from the writer: the
writer it builds, with the plain labels; `none` when the file cannot be opened
(`log.Fatalf`). -/
def NewFileLogger (env : Env) (w : World) (filename : GoString) (time debug trace pid : Bool) :
    Option (FileLogger × World) :=
  let pre := if pid then pidPrefix env else []
  match newFileLogger env w filename pre time with
  | .error _ => none
  | .ok (fl, w) =>
    some ({ fl with logger := setPlainLabelFormats ⟨debug, trace, [], [], [], [], [], []⟩ }, w)

/-- The method `setLimit`. When the size already exceeds the new limit the
method calls `fl.logger.Noticef` with the mutex held: the call never returns. -/
def setLimit (fl : FileLogger) (limit : Int) : LimitResult :=
  let fl := { fl with originalRotationLimit := limit, rotationLimit := limit }
  let fl := { fl with isRotationAllowed := true }
  let rotateNow := decide (fl.currentSize > fl.rotationLimit)
  if rotateNow then ⟨false, fl⟩ else ⟨true, fl⟩

/-- The method `setMaxNumFiles`. -/
def setMaxNumFiles (fl : FileLogger) (max : Int) : FileLogger :=
  { fl with maxBackupFiles := max }

/-- The line `logDirect` builds: the process prefix when not empty, the time
of day when `includeTimestamp`, the label, the message, CR LF. -/
def logEntry (fl : FileLogger) (now : Time) (label msg : GoString) : GoString :=
  let entry : GoString := []
  let entry := if fl.processIDPrefix ≠ [] then entry ++ fl.processIDPrefix else entry
  let entry := if fl.includeTimestamp then entry ++ lineStamp now else entry
  let entry := entry ++ label
  let entry := entry ++ msg
  entry ++ ['\r', '\n']

/-- The method `logDirect`; `msg` is `fmt.Sprintf(format, v...)`. The clock is
read only when `includeTimestamp`. The line is written to the handle and its
length is returned; when the handle returns an error the method calls
`fl.logger.Noticef`, which its callers reach with the mutex held: the call
never returns. -/
def logDirect (env : Env) (fl : FileLogger) (w : World) (label msg : GoString) : DirectResult :=
  let entry := logEntry fl (env.now w.ticks) label msg
  let w := if fl.includeTimestamp then { w with ticks := w.ticks + 1 } else w
  match env.write fl.file entry with
  | some (n, _) => ⟨false, entry.length, { fl with file := fl.file.append (entry.take n) }, w⟩
  | none => ⟨true, entry.length, { fl with file := fl.file.append entry }, w⟩

/-- The first loop of `logPurge`: the names of the entries taken for backups of
the log, in the order of the listing. -/
def scanBackups (logBase : GoString) : List DirEntry → List GoString
  | [] => []
  | entry :: entries =>
    if entry.isDir = true ∨ entry.name = logBase ∨ hasPrefix entry.name logBase = false then
      scanBackups logBase entries
    else
      match cutPrefix entry.name (logBase ++ ['.']) with
      | some stamp =>
        if (timeParse (replaceN '.' ':' 5 stamp)).isSome then
          entry.name :: scanBackups logBase entries
        else scanBackups logBase entries
      | none => scanBackups logBase entries

/-- The second loop of `logPurge`, `for i := 0; i < currBackups-maxBackups; i++`:
`k` iterations are left and `backups` is `backups[i:]`. An index past the
end of the slice is a panic. -/
def purgeLoop (env : Env) (logDir : GoString) :
    Nat → List GoString → FileLogger → World → PurgeResult
  | 0, _, fl, w => ⟨true, fl, w⟩
  | _ + 1, [], fl, w => ⟨false, fl, w⟩
  | k + 1, name :: backups, fl, w =>
    match env.remove logDir name with
    | some err =>
      let w := w.record (.remove logDir name (some err))
      let d := logDirect env fl w fl.logger.errorLabel
        ("Unable to remove backup log file ".toList ++ env.quote name ++ " (".toList ++ err
          ++ "), will attempt next rotation".toList)
      ⟨d.returns, d.fl, d.w⟩
    | none =>
      let w := (w.removed name).record (.remove logDir name none)
      let d := logDirect env fl w fl.logger.infoLabel ("Purged log file ".toList ++ env.quote name)
      if d.returns then purgeLoop env logDir k backups d.fl d.w else ⟨false, d.fl, d.w⟩

/-- The method `logPurge`. -/
def logPurge (env : Env) (fl : FileLogger) (w : World) (fname : GoString) : PurgeResult :=
  let logDir := env.dirOf fname
  let logBase := filepathBase fname
  match env.readDir logDir with
  | some err =>
    let w := w.record (.readDir logDir (some err))
    let d := logDirect env fl w fl.logger.errorLabel
      ("Unable to read directory ".toList ++ env.quote logDir ++ " for log purge (".toList ++ err
        ++ "), will attempt next rotation".toList)
    ⟨d.returns, d.fl, d.w⟩
  | none =>
    let w := w.record (.readDir logDir none)
    let backups := scanBackups logBase w.dir
    let currBackups : Int := backups.length
    let maxBackups : Int := fl.maxBackupFiles - 1
    if currBackups > maxBackups then
      purgeLoop env logDir (currBackups - maxBackups).toNat backups fl w
    else ⟨true, fl, w⟩

/-- The end of a rotation (`filelog.go`, lines 178 to 183), on the new handle:
the status line is written, its length becomes the size and the value `Write`
returns, the limit is restored, and the old backups are purged when a maximum
is set. -/
def finishRotation (env : Env) (fl : FileLogger) (w : World) (fname bak : GoString) :
    WriteResult :=
  let d := logDirect env fl w fl.logger.infoLabel
    ("Rotated log, backup saved as ".toList ++ env.quote bak)
  if d.returns then
    let n := d.n
    let fl : FileLogger := { d.fl with currentSize := n }
    let fl : FileLogger := { fl with rotationLimit := fl.originalRotationLimit }
    if fl.maxBackupFiles > 0 then
      let p := logPurge env fl d.w fname
      ⟨if p.returns then some (n, none) else none, p.fl, p.w⟩
    else ⟨some (n, none), fl, d.w⟩
  else ⟨none, d.fl, d.w⟩

/-- The rotation of `Write` (lines 156 to 183), entered once the size has
passed the limit; `n` is the count of bytes the handle accepted. -/
def rotate (env : Env) (fl : FileLogger) (w : World) (n : Nat) : WriteResult :=
  match env.close fl.file with
  | some err =>
    let w := w.record (.close fl.file.name (some err))
    let fl := { fl with file := fl.file.close, rotationLimit := fl.rotationLimit * 2 }
    let d := logDirect env fl w fl.logger.errorLabel
      ("Unable to close logfile for rotation (".toList ++ err
        ++ "), will attempt next rotation at size ".toList ++ fmtInt fl.rotationLimit)
    ⟨if d.returns then some (n, some err) else none, d.fl, d.w⟩
  | none =>
    let w := w.record (.close fl.file.name none)
    let fl := { fl with file := fl.file.close }
    let fname := fl.file.name
    let now := env.now w.ticks
    let w := { w with ticks := w.ticks + 1 }
    let bak := backupName fname now
    match env.rename fname bak with
    | some err =>
      ⟨some (n, some (errorfWrap "error renaming log file during rotation: " err)), fl,
        w.record (.rename fname bak (some err))⟩
    | none =>
      let w := (w.renamed fname bak).record (.rename fname bak none)
      match env.openFile fname with
      | some err =>
        ⟨some (n, some ("unable to re-open the logfile ".toList ++ env.quote fname
            ++ " after rotation: ".toList ++ err)), fl, w.record (.openFile fname (some err))⟩
      | none =>
        let w := (w.created fname).record (.openFile fname none)
        finishRotation env { fl with file := ⟨fname, [], false⟩ } w fname bak

/-- The method `FileLogger.Write`. A handle that returns an error has accepted
`min n len(b)` bytes. -/
def Write (env : Env) (fl : FileLogger) (w : World) (b : GoString) : WriteResult :=
  if fl.isRotationAllowed = false then
    match env.write fl.file b with
    | some (n, err) =>
      ⟨some (min n b.length, some (errorfWrap "error writing to log file: " err)),
        { fl with file := fl.file.append (b.take n) }, w⟩
    | none =>
      ⟨some (b.length, none),
        { fl with file := fl.file.append b, currentSize := fl.currentSize + b.length }, w⟩
  else
    match env.write fl.file b with
    | some (n, err) =>
      ⟨some (min n b.length, some (errorfWrap "error writing to log file during rotation: " err)),
        { fl with file := fl.file.append (b.take n) }, w⟩
    | none =>
      let n := b.length
      let fl := { fl with file := fl.file.append b, currentSize := fl.currentSize + n }
      if fl.currentSize > fl.rotationLimit then rotate env fl w n
      else ⟨some (n, none), fl, w⟩

/-- The method `close`: the handle is closed once. -/
def close (env : Env) (fl : FileLogger) (w : World) : Option GoError × FileLogger × World :=
  if fl.isClosed then (none, fl, w)
  else
    let fl := { fl with isClosed := true }
    match env.close fl.file with
    | some err =>
      (some (errorfWrap "error closing log file: " err), { fl with file := fl.file.close },
        w.record (.close fl.file.name (some err)))
    | none => (none, { fl with file := fl.file.close }, w.record (.close fl.file.name none))

/-! ## The passthroughs of `log.go`

The argument `lfl` is the field `fl` of the `Logger`: `none` for a logger that
does not write to a file. -/

/-- The method `Logger.SetSizeLimit`: the error it returns, whether it returns,
and the writer afterwards. -/
def SetSizeLimit (lfl : Option FileLogger) (limit : Int) :
    Bool × Option GoError × Option FileLogger :=
  match lfl with
  | none => (true, some "can set log size limit only for file logger".toList, none)
  | some fl =>
    let r := setLimit fl limit
    (r.returns, none, some r.fl)

/-- The method `Logger.SetMaxNumFiles`. -/
def SetMaxNumFiles (lfl : Option FileLogger) (max : Int) : Option GoError × Option FileLogger :=
  match lfl with
  | none => (some "can set log max number of files only for file logger".toList, none)
  | some fl => (none, some (setMaxNumFiles fl max))

/-! ## The severity methods of `log.go`

A `Logger` prints through a `log.Logger` of the standard library
(`log.New(out, prefix, flags)`); `StdLog` is that logger, and each method
below gives the buffers it passes to `out.Write`, in order. -/

/-- The verbs of `fmt`, left open. The state `σ` of the printer holds the
operands and what has been consumed of them. `verb rest s` is what the printer
does at a `%` that `rest` follows: the text it produces, the number of bytes
of `rest` the verb takes, and the state afterwards; `finish s` is the text
added at the end of the output for operands left over. -/
structure Printer (σ : Type) where
  verb : GoString → σ → GoString × Nat × σ
  finish : σ → GoString

/-- The loop of `fmt`'s `doPrintf`: bytes other than `%` are copied, a `%`
starts a verb. One unit of `fuel` is spent per byte or verb; `sprintf` gives
more fuel than the format has bytes. -/
def sprintfLoop {σ : Type} (P : Printer σ) : Nat → GoString → σ → GoString
  | 0, _, s => P.finish s
  | _ + 1, [], s => P.finish s
  | fuel + 1, c :: rest, s =>
    if c = '%' then
      (P.verb rest s).1
        ++ sprintfLoop P fuel (rest.drop (P.verb rest s).2.1) (P.verb rest s).2.2
    else c :: sprintfLoop P fuel rest s

/-- The function `fmt.Sprintf(format, v...)`, with the operands `v` in the
state `s`. -/
def sprintf {σ : Type} (P : Printer σ) (format : GoString) (s : σ) : GoString :=
  sprintfLoop P (format.length + 1) format s

/-- Flag `log.Ldate`. -/
def Ldate : Nat := 1

/-- Flag `log.Ltime`. -/
def Ltime : Nat := 2

/-- Flag `log.Lmicroseconds`. -/
def Lmicroseconds : Nat := 4

/-- Flag `log.LUTC`. -/
def LUTC : Nat := 32

/-- Flag `log.Lmsgprefix`. -/
def Lmsgprefix : Nat := 64

/-- Flags `log.LstdFlags`. -/
def LstdFlags : Nat := Ldate ||| Ltime

/-- The function `logFlags` of `log.go`; an option is the value of a
`LogUTC`. -/
def logFlags (time : Bool) (opts : List Bool) : Nat :=
  let flags := if time then LstdFlags ||| Lmicroseconds else 0
  opts.foldl (fun flags v => if time && v then flags ||| LUTC else flags) flags

/-- A `log.Logger`: the text it puts before each line and its flags. -/
structure StdLog where
  pre : GoString
  flag : Nat
deriving DecidableEq

/-- The function `formatHeader` of package `log`, for the flags `logFlags` can
set (no file name, no line number); `now` is the reading of the clock in the
zone the flags ask for. -/
def formatHeader (pre : GoString) (flag : Nat) (now : Time) : GoString :=
  let buf : GoString := []
  let buf := if flag &&& Lmsgprefix = 0 then buf ++ pre else buf
  let buf :=
    if flag &&& Ldate ≠ 0 then
      buf ++ fmtZeroPad 4 now.year ++ ['/'] ++ fmtZeroPad 2 now.month ++ ['/']
        ++ fmtZeroPad 2 now.day ++ [' ']
    else buf
  let buf :=
    if flag &&& (Ltime ||| Lmicroseconds) ≠ 0 then
      let buf := buf ++ fmtZeroPad 2 now.hour ++ [':'] ++ fmtZeroPad 2 now.minute ++ [':']
        ++ fmtZeroPad 2 now.second
      let buf :=
        if flag &&& Lmicroseconds ≠ 0 then buf ++ ['.'] ++ fmtZeroPad 6 (now.nanosecond / 1000)
        else buf
      buf ++ [' ']
    else buf
  if flag &&& Lmsgprefix ≠ 0 then buf ++ pre else buf

/-- The end of `log.Logger.output`: a newline is added to a buffer that is
empty or does not end in one. -/
def endLine (buf : GoString) : GoString :=
  if buf.getLast? = some '\n' then buf else buf ++ ['\n']

/-- The method `log.Logger.Printf`: the buffer it passes, in one call, to
`out.Write`. -/
def StdLog.Printf {σ : Type} (P : Printer σ) (out : StdLog) (now : Time) (format : GoString)
    (s : σ) : GoString :=
  endLine (formatHeader out.pre out.flag now ++ sprintf P format s)

/-- The constructor `NewStdLogger` of `log.go`: the logger and the
`log.Logger` it prints through (on `os.Stderr`). -/
def NewStdLogger (env : Env) (time debug trace colors pid : Bool) (opts : List Bool) :
    Logger × StdLog :=
  let flags := logFlags time opts
  let pre := if pid then pidPrefix env else []
  let l : Logger := ⟨debug, trace, [], [], [], [], [], []⟩
  (if colors then setColoredLabelFormats l else setPlainLabelFormats l, ⟨pre, flags⟩)

/-- The method `Noticef`: the buffers written to the sink. -/
def Noticef {σ : Type} (P : Printer σ) (l : Logger) (out : StdLog) (now : Time)
    (format : GoString) (s : σ) : List GoString :=
  [out.Printf P now (l.infoLabel ++ format) s]

/-- The method `Warnf`. -/
def Warnf {σ : Type} (P : Printer σ) (l : Logger) (out : StdLog) (now : Time)
    (format : GoString) (s : σ) : List GoString :=
  [out.Printf P now (l.warnLabel ++ format) s]

/-- The method `Errorf`. -/
def Errorf {σ : Type} (P : Printer σ) (l : Logger) (out : StdLog) (now : Time)
    (format : GoString) (s : σ) : List GoString :=
  [out.Printf P now (l.errorLabel ++ format) s]

/-- The method `Debugf`. -/
def Debugf {σ : Type} (P : Printer σ) (l : Logger) (out : StdLog) (now : Time)
    (format : GoString) (s : σ) : List GoString :=
  if l.debug then [out.Printf P now (l.debugLabel ++ format) s] else []

/-- The method `Tracef`. -/
def Tracef {σ : Type} (P : Printer σ) (l : Logger) (out : StdLog) (now : Time)
    (format : GoString) (s : σ) : List GoString :=
  if l.trace then [out.Printf P now (l.traceLabel ++ format) s] else []

/-! ## Notions used in the statements -/

/-- The calls that make up a rotation: `Close`, `os.Rename`, `os.OpenFile`. -/
def Event.isRotationStep : Event → Bool
  | .close _ _ => true
  | .rename _ _ _ => true
  | .openFile _ _ => true
  | .readDir _ _ => false
  | .remove _ _ _ => false

/-- The error a call returned (`none` for nil). -/
def Event.err : Event → Option GoError
  | .close _ err => err
  | .rename _ _ err => err
  | .openFile _ err => err
  | .readDir _ err => err
  | .remove _ _ err => err

/-- Two writers that differ at most in the handle's appended bytes. -/
def SameButWritten (a b : FileLogger) : Prop :=
  b = { a with file := ⟨a.file.name, b.file.written, a.file.closed⟩ }

/-- Number of the components of a string that are separated by periods. -/
def dotComponents (s : GoString) : Nat := s.count '.' + 1

/-- What `scanBackups` tests on one entry: the entry is taken for a backup of
the log named `logBase`. -/
def isBackup (logBase : GoString) (entry : DirEntry) : Bool :=
  if entry.isDir = true ∨ entry.name = logBase ∨ hasPrefix entry.name logBase = false then false
  else
    match cutPrefix entry.name (logBase ++ ['.']) with
    | some stamp => (timeParse (replaceN '.' ':' 5 stamp)).isSome
    | none => false

/-- The status line of a rotation entered from writer `fl` in world `w`: the
backup name comes from the first reading of the clock, the time of day of the
line (when the writer prints one) from the next. -/
def rotatedLine (env : Env) (fl : FileLogger) (w : World) : GoString :=
  logEntry fl (env.now (w.ticks + 1)) fl.logger.infoLabel
    ("Rotated log, backup saved as ".toList ++ env.quote (backupName fl.file.name (env.now w.ticks)))

/-- The diagnostic line of a rotation given up because `Close` returned
`err`; `limit` is the limit after doubling. -/
def closeFailedLine (env : Env) (fl : FileLogger) (w : World) (err : GoError) (limit : Int) :
    GoString :=
  logEntry fl (env.now w.ticks) fl.logger.errorLabel
    ("Unable to close logfile for rotation (".toList ++ err
      ++ "), will attempt next rotation at size ".toList ++ fmtInt limit)

/-- Writes made one after the other, each on the writer and the world the
previous one left. -/
def runWrites (env : Env) : FileLogger × World → List GoString → FileLogger × World
  | s, [] => s
  | s, b :: bs => runWrites env ((Write env s.1 s.2 b).fl, (Write env s.1 s.2 b).w) bs

/-- Chronological order on readings of the clock, by components. -/
def Time.before (a b : Time) : Prop :=
  a.year < b.year ∨ (a.year = b.year ∧ (a.month < b.month ∨ (a.month = b.month ∧
    (a.day < b.day ∨ (a.day = b.day ∧ (a.hour < b.hour ∨ (a.hour = b.hour ∧
      (a.minute < b.minute ∨ (a.minute = b.minute ∧ (a.second < b.second ∨
        (a.second = b.second ∧ a.nanosecond < b.nanosecond)))))))))))

/-- The components of a reading are those of a calendar time with a
four-digit year. -/
def Time.inRange (t : Time) : Prop :=
  t.year ≤ 9999 ∧ 1 ≤ t.month ∧ t.month ≤ 12 ∧ 1 ≤ t.day ∧ t.day ≤ 31 ∧ t.hour ≤ 23 ∧
    t.minute ≤ 59 ∧ t.second ≤ 59 ∧ t.nanosecond ≤ 999999999

/-- The components of a reading are those of a date of the calendar, with a
year of at most four digits, and of a time of day. -/
def Time.valid (t : Time) : Prop :=
  t.year ≤ 9999 ∧ 1 ≤ t.month ∧ t.month ≤ 12 ∧ 1 ≤ t.day ∧ t.day ≤ daysIn t.month t.year ∧
    t.hour ≤ 23 ∧ t.minute ≤ 59 ∧ t.second ≤ 59 ∧ t.nanosecond ≤ 999999999

/-- The stamp of a backup name: what follows the path and the period in
`backupName`. -/
def backupStamp (now : Time) : GoString :=
  fmtZeroPad 4 now.year ++ ['.'] ++ fmtZeroPad 2 now.month ++ ['.']
    ++ fmtZeroPad 2 now.day ++ ['.'] ++ fmtZeroPad 2 now.hour ++ ['.'] ++ fmtZeroPad 2 now.minute
    ++ ['.'] ++ fmtZeroPad 2 now.second ++ ['.'] ++ fmtZeroPad 9 now.nanosecond

/-! ## Sample data -/

/-- A platform on which every call succeeds; reading `k` of the clock is
2024-05-06 07:08:09 plus `123 + k` nanoseconds, and `%q` puts the string
between double quotes (character 34). -/
def okEnv : Env where
  write := fun _ _ => none
  close := fun _ => none
  rename := fun _ _ => none
  openFile := fun _ => none
  readDir := fun _ => none
  remove := fun _ _ => none
  statSize := fun _ => .ok 0
  now := fun k => ⟨2024, 5, 6, 7, 8, 9, 123 + k⟩
  quote := fun s => [Char.ofNat 34] ++ s ++ [Char.ofNat 34]
  dirOf := fun _ => ['.']
  getpid := 42

/-- The platform `okEnv`, except that `Close` returns an error. -/
def closeFailEnv : Env :=
  { okEnv with close := fun _ => some "input/output error".toList }

/-- A platform whose handles behave like `*os.File` after a `Close` that
fails: `Close` returns an error, and a handle on which `Close` has been called
accepts no byte and returns an error. -/
def closedHandleEnv : Env :=
  { okEnv with
    close := fun _ => some "input/output error".toList
    write := fun f _ => if f.closed then some (0, "file already closed".toList) else none }

/-- A platform on which a file cannot grow beyond 128 bytes (a limit on the
size of files, or a disk with no room left): a write that would take the bytes
appended through a handle past 128 writes nothing and returns an error. Every
other call succeeds. -/
def quotaEnv : Env :=
  { okEnv with
    write := fun f line =>
      if f.written.length + line.length > 128 then some (0, "no space left on device".toList)
      else none }

/-- The log file of the samples. -/
def appLog : GoString := "app.log".toList

/-- A record of 30 bytes. -/
def rec30 : GoString := List.replicate 30 'x'

/-- A writer as `NewFileLogger` builds it on the empty file `app.log`, without
process prefix and time of day. -/
def freshWriter : FileLogger where
  currentSize := 0
  isRotationAllowed := false
  logger := setPlainLabelFormats ⟨false, false, [], [], [], [], [], []⟩
  file := ⟨appLog, [], false⟩
  rotationLimit := 0
  originalRotationLimit := 0
  processIDPrefix := []
  includeTimestamp := false
  isClosed := false
  maxBackupFiles := 0

/-- A directory that holds the log file alone. -/
def emptyWorld : World := ⟨[⟨appLog, false⟩], 0, []⟩

/-- A directory that holds the log file, two backups of it from 2023 and a
file `app.log.old`. -/
def twoBackupsWorld : World :=
  ⟨[⟨appLog, false⟩,
    ⟨"app.log.2023.01.01.00.00.00.000000001".toList, false⟩,
    ⟨"app.log.2023.01.01.00.00.00.000000002".toList, false⟩,
    ⟨"app.log.old".toList, false⟩], 0, []⟩

/-- A directory that holds the log file, a backup of it from 2023, a file whose
name ends in six numbers only, a directory named like a backup, and three
files whose names start like the log's: `app.log.1`, `app.log.old`,
`app.logx`. -/
def mixedWorld : World :=
  ⟨[⟨appLog, false⟩,
    ⟨"app.log.1".toList, false⟩,
    ⟨"app.log.2023.01.01.00.00.00.000000001".toList, false⟩,
    ⟨"app.log.2024.01.02.03.04.05".toList, false⟩,
    ⟨"app.log.2025.01.01.00.00.00.000000001".toList, true⟩,
    ⟨"app.log.old".toList, false⟩,
    ⟨"app.logx".toList, false⟩], 0, []⟩

/-- The writer `freshWriter` after `setLimit(100)`. -/
def limitedWriter : FileLogger := (setLimit freshWriter 100).fl

/-- The writer `limitedWriter` after three records of 30 bytes, in a directory
that holds the log file alone: the size is 90. -/
def writer90 : FileLogger × World :=
  runWrites okEnv (limitedWriter, emptyWorld) [rec30, rec30, rec30]

/-- The writer `writer90` after a fourth record, written while `Close` fails,
and two more: the limit has been doubled to 200 and the size is 180. -/
def writerDoubled : FileLogger × World :=
  runWrites okEnv
    ((Write closeFailEnv writer90.1 writer90.2 rec30).fl,
      (Write closeFailEnv writer90.1 writer90.2 rec30).w) [rec30, rec30]

/-- A printer that knows no verb: a `%` is printed as it stands, and nothing
is added for operands. -/
def plainPrinter : Printer Unit where
  verb := fun _ _ => (['%'], 0, ())
  finish := fun _ => []

/-! ## Lemmas on the world -/

@[simp] theorem append_name (f : File) (b : GoString) : (f.append b).name = f.name := rfl

@[simp] theorem append_closed (f : File) (b : GoString) :
    (f.append b).closed = f.closed := rfl

@[simp] theorem close_name (f : File) : f.close.name = f.name := rfl

@[simp] theorem close_written (f : File) : f.close.written = f.written := rfl

@[simp] theorem append_written (f : File) (b : GoString) :
    (f.append b).written = f.written ++ b := rfl

@[simp] theorem record_events (w : World) (e : Event) : (w.record e).events = w.events ++ [e] := rfl

@[simp] theorem record_dir (w : World) (e : Event) : (w.record e).dir = w.dir := rfl

@[simp] theorem record_ticks (w : World) (e : Event) : (w.record e).ticks = w.ticks := rfl

@[simp] theorem renamed_events (w : World) (a b : GoString) : (w.renamed a b).events = w.events := rfl

@[simp] theorem renamed_ticks (w : World) (a b : GoString) : (w.renamed a b).ticks = w.ticks := rfl

@[simp] theorem created_events (w : World) (a : GoString) : (w.created a).events = w.events := by
  unfold World.created; split <;> rfl

@[simp] theorem created_ticks (w : World) (a : GoString) : (w.created a).ticks = w.ticks := by
  unfold World.created; split <;> rfl

@[simp] theorem removed_events (w : World) (a : GoString) : (w.removed a).events = w.events := rfl

@[simp] theorem removed_ticks (w : World) (a : GoString) : (w.removed a).ticks = w.ticks := rfl

@[simp] theorem removed_dir (w : World) (a : GoString) : (w.removed a).dir = removeEntry a w.dir := rfl

/-! ## Lemmas on `logDirect` -/

theorem sameButWritten_refl (a : FileLogger) : SameButWritten a a := by
  cases a; simp [SameButWritten]

theorem sameButWritten_trans {a b c : FileLogger} (h₁ : SameButWritten a b)
    (h₂ : SameButWritten b c) : SameButWritten a c := by
  unfold SameButWritten at *
  rw [h₂, h₁]

theorem logDirect_events (env : Env) (fl : FileLogger) (w : World) (label msg : GoString) :
    (logDirect env fl w label msg).w.events = w.events := by
  simp only [logDirect]
  split <;> split <;> rfl

theorem logDirect_dir (env : Env) (fl : FileLogger) (w : World) (label msg : GoString) :
    (logDirect env fl w label msg).w.dir = w.dir := by
  simp only [logDirect]
  split <;> split <;> rfl

theorem logDirect_same (env : Env) (fl : FileLogger) (w : World) (label msg : GoString) :
    SameButWritten fl (logDirect env fl w label msg).fl := by
  simp only [logDirect, SameButWritten]
  split <;> simp [File.append]

theorem logDirect_written (env : Env) (fl : FileLogger) (w : World) (label msg : GoString) :
    fl.file.written <+: (logDirect env fl w label msg).fl.file.written := by
  simp only [logDirect]
  split <;> simp [File.append]

theorem logDirect_n (env : Env) (fl : FileLogger) (w : World) (label msg : GoString) :
    (logDirect env fl w label msg).n = (logEntry fl (env.now w.ticks) label msg).length := by
  simp only [logDirect]
  split <;> rfl

theorem logDirect_ok (env : Env) (fl : FileLogger) (w : World) (label msg : GoString)
    (h : env.write fl.file (logEntry fl (env.now w.ticks) label msg) = none) :
    (logDirect env fl w label msg).returns = true ∧
    (logDirect env fl w label msg).fl
      = { fl with file := fl.file.append (logEntry fl (env.now w.ticks) label msg) } := by
  simp only [logDirect]
  simp [h]

theorem logDirect_returns (env : Env) (fl : FileLogger) (w : World) (label msg : GoString) :
    (logDirect env fl w label msg).returns = true ↔
      env.write fl.file (logEntry fl (env.now w.ticks) label msg) = none := by
  simp only [logDirect]
  split <;> simp_all

/-! ## Lemmas on `logPurge` -/

theorem purgeLoop_same (env : Env) (logDir : GoString) (k : Nat) (backups : List GoString)
    (fl : FileLogger) (w : World) :
    SameButWritten fl (purgeLoop env logDir k backups fl w).fl := by
  induction backups generalizing k fl w with
  | nil => cases k <;> simp [purgeLoop, sameButWritten_refl]
  | cons name rest ih =>
    cases k with
    | zero => simp [purgeLoop, sameButWritten_refl]
    | succ k =>
      simp only [purgeLoop]
      split
      · exact logDirect_same ..
      · split
        · exact sameButWritten_trans (logDirect_same ..) (ih ..)
        · exact logDirect_same ..

theorem purgeLoop_written (env : Env) (logDir : GoString) (k : Nat) (backups : List GoString)
    (fl : FileLogger) (w : World) :
    fl.file.written <+: (purgeLoop env logDir k backups fl w).fl.file.written := by
  induction backups generalizing k fl w with
  | nil => cases k <;> simp [purgeLoop]
  | cons name rest ih =>
    cases k with
    | zero => simp [purgeLoop]
    | succ k =>
      simp only [purgeLoop]
      split
      · exact logDirect_written ..
      · split
        · exact (logDirect_written ..).trans (ih ..)
        · exact logDirect_written ..

theorem purgeLoop_events (env : Env) (logDir : GoString) (k : Nat) (backups : List GoString)
    (fl : FileLogger) (w : World) :
    ∃ rest, (purgeLoop env logDir k backups fl w).w.events = w.events ++ rest ∧
      ∀ e ∈ rest, e.isRotationStep = false := by
  induction backups generalizing k fl w with
  | nil => cases k <;> exact ⟨[], by simp [purgeLoop]⟩
  | cons name rest ih =>
    cases k with
    | zero => exact ⟨[], by simp [purgeLoop]⟩
    | succ k =>
      simp only [purgeLoop]
      split
      · next err _ =>
        exact ⟨[.remove logDir name (some err)],
          by simp [logDirect_events, World.record, Event.isRotationStep]⟩
      · split
        · obtain ⟨es, h₁, h₂⟩ := ih k
            (logDirect env fl ((w.removed name).record (.remove logDir name none))
              fl.logger.infoLabel ("Purged log file ".toList ++ env.quote name)).fl
            (logDirect env fl ((w.removed name).record (.remove logDir name none))
              fl.logger.infoLabel ("Purged log file ".toList ++ env.quote name)).w
          refine ⟨.remove logDir name none :: es, ?_, ?_⟩
          · rw [h₁, logDirect_events]
            simp [World.record, World.removed]
          · intro e he
            rcases List.mem_cons.mp he with rfl | he
            · rfl
            · exact h₂ e he
        · exact ⟨[.remove logDir name none],
            by simp [logDirect_events, World.record, World.removed, Event.isRotationStep]⟩

theorem removeEntry_filter (name : GoString) (removed : List GoString) (dir : List DirEntry) :
    (removeEntry name dir).filter (fun e => decide (e.name ∉ removed))
      = dir.filter (fun e => decide (e.name ∉ name :: removed)) := by
  unfold removeEntry
  rw [List.filter_filter]
  congr 1
  funext e
  simp [Bool.and_comm]

theorem purgeLoop_dir (env : Env) (logDir : GoString) (k : Nat) (backups : List GoString)
    (fl : FileLogger) (w : World) :
    ∃ removed, removed <+: backups ∧
      (purgeLoop env logDir k backups fl w).w.dir
        = w.dir.filter (fun e => decide (e.name ∉ removed)) := by
  induction backups generalizing k fl w with
  | nil => cases k <;> exact ⟨[], by simp [purgeLoop]⟩
  | cons name rest ih =>
    cases k with
    | zero => exact ⟨[], by simp [purgeLoop]⟩
    | succ k =>
      simp only [purgeLoop]
      split
      · exact ⟨[], by simp [logDirect_dir, World.record]⟩
      · split
        · obtain ⟨rm, h₁, h₂⟩ := ih k
            (logDirect env fl ((w.removed name).record (.remove logDir name none))
              fl.logger.infoLabel ("Purged log file ".toList ++ env.quote name)).fl
            (logDirect env fl ((w.removed name).record (.remove logDir name none))
              fl.logger.infoLabel ("Purged log file ".toList ++ env.quote name)).w
          refine ⟨name :: rm, ?_, ?_⟩
          · exact (List.prefix_cons_inj name).mpr h₁
          · rw [h₂, logDirect_dir]
            simpa [World.record, World.removed] using removeEntry_filter name rm w.dir
        · refine ⟨[name], by simp, ?_⟩
          rw [logDirect_dir]
          simpa [World.record, World.removed] using removeEntry_filter name [] w.dir

theorem logPurge_same (env : Env) (fl : FileLogger) (w : World) (fname : GoString) :
    SameButWritten fl (logPurge env fl w fname).fl := by
  simp only [logPurge]
  split
  · exact logDirect_same ..
  · split
    · exact purgeLoop_same ..
    · exact sameButWritten_refl fl

theorem logPurge_written (env : Env) (fl : FileLogger) (w : World) (fname : GoString) :
    fl.file.written <+: (logPurge env fl w fname).fl.file.written := by
  simp only [logPurge]
  split
  · exact logDirect_written ..
  · split
    · exact purgeLoop_written ..
    · exact List.prefix_refl _

theorem logPurge_events (env : Env) (fl : FileLogger) (w : World) (fname : GoString) :
    ∃ rest, (logPurge env fl w fname).w.events = w.events ++ rest ∧
      ∀ e ∈ rest, e.isRotationStep = false := by
  simp only [logPurge]
  split
  · next err _ =>
    exact ⟨[.readDir (env.dirOf fname) (some err)],
      by simp [logDirect_events, World.record, Event.isRotationStep]⟩
  · split
    · obtain ⟨es, h₁, h₂⟩ := purgeLoop_events env (env.dirOf fname)
        ((((scanBackups (filepathBase fname) (w.record (.readDir (env.dirOf fname) none)).dir).length : Int)
          - (fl.maxBackupFiles - 1)).toNat)
        (scanBackups (filepathBase fname) (w.record (.readDir (env.dirOf fname) none)).dir) fl
        (w.record (.readDir (env.dirOf fname) none))
      refine ⟨.readDir (env.dirOf fname) none :: es, ?_, ?_⟩
      · rw [h₁]; simp [World.record]
      · intro e he
        rcases List.mem_cons.mp he with rfl | he
        · rfl
        · exact h₂ e he
    · exact ⟨[.readDir (env.dirOf fname) none], by simp [World.record, Event.isRotationStep]⟩

theorem logPurge_dir (env : Env) (fl : FileLogger) (w : World) (fname : GoString) :
    ∃ removed, removed <+: scanBackups (filepathBase fname) w.dir ∧
      (logPurge env fl w fname).w.dir = w.dir.filter (fun e => decide (e.name ∉ removed)) := by
  simp only [logPurge]
  split
  · exact ⟨[], by simp [logDirect_dir, World.record]⟩
  · split
    · exact purgeLoop_dir env (env.dirOf fname) _ _ fl (w.record (.readDir (env.dirOf fname) none))
    · exact ⟨[], by simp [World.record]⟩

/-! ## Lemmas on the rotation -/

theorem finishRotation_events (env : Env) (fl : FileLogger) (w : World) (fname bak : GoString) :
    ∃ rest, (finishRotation env fl w fname bak).w.events = w.events ++ rest ∧
      ∀ e ∈ rest, e.isRotationStep = false := by
  simp only [finishRotation]
  split
  · split
    · obtain ⟨es, h₁, h₂⟩ := logPurge_events env
        { (logDirect env fl w fl.logger.infoLabel
              ("Rotated log, backup saved as ".toList ++ env.quote bak)).fl with
          currentSize := (logDirect env fl w fl.logger.infoLabel
              ("Rotated log, backup saved as ".toList ++ env.quote bak)).n
          rotationLimit := (logDirect env fl w fl.logger.infoLabel
              ("Rotated log, backup saved as ".toList ++ env.quote bak)).fl.originalRotationLimit }
        (logDirect env fl w fl.logger.infoLabel
              ("Rotated log, backup saved as ".toList ++ env.quote bak)).w fname
      exact ⟨es, by rw [h₁, logDirect_events], h₂⟩
    · exact ⟨[], by simp [logDirect_events]⟩
  · exact ⟨[], by simp [logDirect_events]⟩

theorem rotate_events_head (env : Env) (fl : FileLogger) (w : World) (n : Nat) :
    ∃ rest, (rotate env fl w n).w.events
      = w.events ++ Event.close fl.file.name (env.close fl.file) :: rest := by
  simp only [rotate, close_name]
  split
  · next err h => exact ⟨[], by simp [logDirect_events, h]⟩
  · next h =>
    rw [h]
    split
    · exact ⟨_, by simp; rfl⟩
    · split
      · exact ⟨_, by simp; rfl⟩
      · obtain ⟨es, h₁, -⟩ := finishRotation_events env
          { fl with file := ⟨fl.file.name, [], false⟩ }
          ((((({ w.record (.close fl.file.name none) with
                  ticks := (w.record (.close fl.file.name none)).ticks + 1 } : World).renamed fl.file.name
                (backupName fl.file.name (env.now (w.record (.close fl.file.name none)).ticks))).record
              (.rename fl.file.name
                (backupName fl.file.name (env.now (w.record (.close fl.file.name none)).ticks)) none)).created
            fl.file.name).record (.openFile fl.file.name none))
          fl.file.name (backupName fl.file.name (env.now (w.record (.close fl.file.name none)).ticks))
        rw [h₁]
        exact ⟨_, by simp; rfl⟩

theorem SameButWritten.fields {a b : FileLogger} (h : SameButWritten a b) :
    b.file.name = a.file.name ∧ b.currentSize = a.currentSize ∧ b.rotationLimit = a.rotationLimit ∧
      b.originalRotationLimit = a.originalRotationLimit ∧ b.maxBackupFiles = a.maxBackupFiles ∧
      b.isRotationAllowed = a.isRotationAllowed := by
  unfold SameButWritten at h
  rw [h]
  simp

theorem finishRotation_file (env : Env) (fl : FileLogger) (w : World) (fname bak : GoString) :
    (finishRotation env fl w fname bak).fl.file.name = fl.file.name ∧
      fl.file.written <+: (finishRotation env fl w fname bak).fl.file.written := by
  have hd := (logDirect_same env fl w fl.logger.infoLabel
    ("Rotated log, backup saved as ".toList ++ env.quote bak)).fields.1
  have hw := logDirect_written env fl w fl.logger.infoLabel
    ("Rotated log, backup saved as ".toList ++ env.quote bak)
  simp only [finishRotation]
  generalize logDirect env fl w fl.logger.infoLabel
    ("Rotated log, backup saved as ".toList ++ env.quote bak) = d at hd hw ⊢
  split
  · split
    · have h₁ := (logPurge_same env
        { d.fl with currentSize := d.n, rotationLimit := d.fl.originalRotationLimit } d.w fname).fields.1
      have h₂ := logPurge_written env
        { d.fl with currentSize := d.n, rotationLimit := d.fl.originalRotationLimit } d.w fname
      exact ⟨h₁.trans hd, hw.trans h₂⟩
    · exact ⟨hd, hw⟩
  · exact ⟨hd, hw⟩

theorem finishRotation_ret (env : Env) (fl : FileLogger) (w : World) (fname bak : GoString)
    (m : Nat) (err : Option GoError) (h : (finishRotation env fl w fname bak).ret = some (m, err)) :
    env.write fl.file (logEntry fl (env.now w.ticks) fl.logger.infoLabel
        ("Rotated log, backup saved as ".toList ++ env.quote bak)) = none ∧
      m = (logEntry fl (env.now w.ticks) fl.logger.infoLabel
        ("Rotated log, backup saved as ".toList ++ env.quote bak)).length ∧ err = none := by
  simp only [finishRotation] at h
  split at h
  · next hr =>
    refine ⟨(logDirect_returns ..).mp hr, ?_⟩
    split at h
    · split at h
      · simp only [Option.some.injEq, Prod.mk.injEq] at h
        exact ⟨by rw [← h.1, logDirect_n], h.2.symm⟩
      · exact absurd h (by simp)
    · simp only [Option.some.injEq, Prod.mk.injEq] at h
      exact ⟨by rw [← h.1, logDirect_n], h.2.symm⟩
  · exact absurd h (by simp)

theorem finishRotation_ok (env : Env) (fl : FileLogger) (w : World) (fname bak : GoString)
    (hs : env.write fl.file (logEntry fl (env.now w.ticks) fl.logger.infoLabel
        ("Rotated log, backup saved as ".toList ++ env.quote bak)) = none) :
    (finishRotation env fl w fname bak).fl.currentSize
        = (logEntry fl (env.now w.ticks) fl.logger.infoLabel
            ("Rotated log, backup saved as ".toList ++ env.quote bak)).length ∧
      (finishRotation env fl w fname bak).fl.rotationLimit = fl.originalRotationLimit ∧
      (finishRotation env fl w fname bak).fl.originalRotationLimit = fl.originalRotationLimit ∧
      (fl.file.written ++ logEntry fl (env.now w.ticks) fl.logger.infoLabel
            ("Rotated log, backup saved as ".toList ++ env.quote bak))
          <+: (finishRotation env fl w fname bak).fl.file.written ∧
      (fl.maxBackupFiles ≤ 0 →
        (finishRotation env fl w fname bak).fl.file.written
          = fl.file.written ++ logEntry fl (env.now w.ticks) fl.logger.infoLabel
            ("Rotated log, backup saved as ".toList ++ env.quote bak)) := by
  obtain ⟨hret, hfl⟩ := logDirect_ok env fl w fl.logger.infoLabel
    ("Rotated log, backup saved as ".toList ++ env.quote bak) hs
  have hn := logDirect_n env fl w fl.logger.infoLabel
    ("Rotated log, backup saved as ".toList ++ env.quote bak)
  simp only [finishRotation]
  generalize logDirect env fl w fl.logger.infoLabel
    ("Rotated log, backup saved as ".toList ++ env.quote bak) = d at hret hfl hn ⊢
  generalize logEntry fl (env.now w.ticks) fl.logger.infoLabel
    ("Rotated log, backup saved as ".toList ++ env.quote bak) = line at hfl hn ⊢
  have hfile : d.fl.file.written = fl.file.written ++ line := by rw [hfl]; rfl
  have horig : d.fl.originalRotationLimit = fl.originalRotationLimit := by rw [hfl]
  have hmax : d.fl.maxBackupFiles = fl.maxBackupFiles := by rw [hfl]
  rw [if_pos hret]
  split
  · next hk =>
    have hp := (logPurge_same env
      { d.fl with currentSize := d.n, rotationLimit := d.fl.originalRotationLimit } d.w fname).fields
    have hq := logPurge_written env
      { d.fl with currentSize := d.n, rotationLimit := d.fl.originalRotationLimit } d.w fname
    refine ⟨?_, ?_, ?_, ?_, ?_⟩
    · rw [hp.2.1, ← hn]
    · rw [hp.2.2.1]; exact horig
    · rw [hp.2.2.2.1]; exact horig
    · rw [← hfile]; exact hq
    · intro hle
      exact absurd hk (by simpa [hmax] using hle)
  · refine ⟨by simp [hn], horig, horig, by simp [hfile], ?_⟩
    intro _
    simpa using hfile

theorem rotate_reopened (env : Env) (fl : FileLogger) (w : World) (n : Nat)
    (hc : env.close fl.file = none)
    (hr : env.rename fl.file.name (backupName fl.file.name (env.now w.ticks)) = none)
    (ho : env.openFile fl.file.name = none) :
    ∃ w₃ : World,
      w₃.events = w.events ++ [.close fl.file.name none,
        .rename fl.file.name (backupName fl.file.name (env.now w.ticks)) none,
        .openFile fl.file.name none] ∧
      w₃.ticks = w.ticks + 1 ∧
      rotate env fl w n = finishRotation env { fl with file := ⟨fl.file.name, [], false⟩ } w₃ fl.file.name
        (backupName fl.file.name (env.now w.ticks)) := by
  simp only [rotate, hc, record_ticks, close_name, hr, ho]
  exact ⟨_, by simp, by simp, rfl⟩

theorem write_guarded (env : Env) (fl : FileLogger) (w : World) (b : GoString)
    (hrot : fl.isRotationAllowed = true) (happ : env.write fl.file b = none) :
    Write env fl w b =
      if fl.currentSize + b.length > fl.rotationLimit then
        rotate env { fl with file := fl.file.append b, currentSize := fl.currentSize + b.length } w
          b.length
      else ⟨some (b.length, none),
        { fl with file := fl.file.append b, currentSize := fl.currentSize + b.length }, w⟩ := by
  simp [Write, hrot, happ]

theorem write_enters_rotation_iff (env : Env) (fl : FileLogger) (w : World) (b : GoString)
    (hrot : fl.isRotationAllowed = true) (happ : env.write fl.file b = none) :
    (∃ err rest, (Write env fl w b).w.events = w.events ++ Event.close fl.file.name err :: rest)
      ↔ fl.currentSize + b.length > fl.rotationLimit := by
  rw [write_guarded env fl w b hrot happ]
  constructor
  · rintro ⟨err, rest, h⟩
    by_contra hle
    rw [if_neg hle] at h
    have := congrArg List.length h
    simp at this
  · intro hgt
    rw [if_pos hgt]
    obtain ⟨rest, h⟩ := rotate_events_head env
      { fl with file := fl.file.append b, currentSize := fl.currentSize + b.length } w b.length
    exact ⟨_, rest, h⟩

/-- C1. A `Write` on a writer with rotation enabled whose append succeeds (the
handle accepts all `n = len(b)` bytes) enters the rotation, that is, closes the
handle, if and only if `currentSize + n > rotationLimit`; at the limit or
below it, it returns `(n, nil)` and leaves the world as it was. When `Close`,
`os.Rename` and `os.OpenFile` succeed, the call makes exactly one rotation:
its calls are `Close`, `os.Rename` of the path to
`path.YYYY.MM.DD.hh.mm.ss.nnnnnnnnn` and `os.OpenFile` of the path, followed
by calls of the purge only; the handle of the writer is then a new one on the
same path, whose content starts with the status line once it has accepted
that line. -/
theorem write_rotates_iff_above_limit (env : Env) (fl : FileLogger) (w : World) (b : GoString)
    (hrot : fl.isRotationAllowed = true) (happ : env.write fl.file b = none) :
    ((∃ err rest, (Write env fl w b).w.events = w.events ++ Event.close fl.file.name err :: rest)
        ↔ fl.currentSize + b.length > fl.rotationLimit) ∧
    (fl.currentSize + b.length ≤ fl.rotationLimit →
      (Write env fl w b).ret = some (b.length, none) ∧ (Write env fl w b).w = w ∧
        (Write env fl w b).fl.file = fl.file.append b) ∧
    (fl.currentSize + b.length > fl.rotationLimit →
      env.close (fl.file.append b) = none →
      env.rename fl.file.name (backupName fl.file.name (env.now w.ticks)) = none →
      env.openFile fl.file.name = none →
      (∃ rest, (Write env fl w b).w.events = w.events ++
          [.close fl.file.name none,
            .rename fl.file.name (backupName fl.file.name (env.now w.ticks)) none,
            .openFile fl.file.name none] ++ rest ∧
          ∀ e ∈ rest, e.isRotationStep = false) ∧
      (Write env fl w b).fl.file.name = fl.file.name ∧
      (env.write ⟨fl.file.name, [], false⟩ (rotatedLine env fl w) = none →
        rotatedLine env fl w <+: (Write env fl w b).fl.file.written)) := by
  refine ⟨write_enters_rotation_iff env fl w b hrot happ, ?_, ?_⟩ <;>
    rw [write_guarded env fl w b hrot happ]
  · intro hle
    rw [if_neg (not_lt.mpr hle)]
    exact ⟨rfl, rfl, rfl⟩
  · intro hgt hc hr ho
    rw [if_pos hgt]
    obtain ⟨w₃, he, ht, hrot⟩ := rotate_reopened env
      { fl with file := fl.file.append b, currentSize := fl.currentSize + b.length } w b.length hc hr ho
    dsimp only at he hrot
    simp only [append_name] at he hrot
    rw [hrot]
    refine ⟨?_, ?_, ?_⟩
    · obtain ⟨rest, h₁, h₂⟩ := finishRotation_events env
        { fl with file := ⟨fl.file.name, [], false⟩, currentSize := fl.currentSize + b.length } w₃
        fl.file.name (backupName fl.file.name (env.now w.ticks))
      exact ⟨rest, by rw [h₁, he], h₂⟩
    · exact (finishRotation_file env
        { fl with file := ⟨fl.file.name, [], false⟩, currentSize := fl.currentSize + b.length } w₃
        fl.file.name (backupName fl.file.name (env.now w.ticks))).1
    · intro hs
      have := (finishRotation_ok env
        { fl with file := ⟨fl.file.name, [], false⟩, currentSize := fl.currentSize + b.length } w₃
        fl.file.name (backupName fl.file.name (env.now w.ticks))
        (by rw [ht]; exact hs)).2.2.2.1
      rw [ht] at this
      simpa using this

/-- Witness of C1: limit 100 on an empty log, records of 30 bytes. After three
writes the size is 90 and nothing has been closed; the fourth write takes the
size to 120 and rotates. -/
theorem write_rotates_iff_above_limit_witness :
    writer90.1.isRotationAllowed = true ∧
    okEnv.write writer90.1.file rec30 = none ∧
    writer90.1.currentSize = 90 ∧ writer90.1.rotationLimit = 100 ∧ writer90.2.events = [] ∧
    ((∃ err rest, (Write okEnv writer90.1 writer90.2 rec30).w.events
          = writer90.2.events ++ Event.close writer90.1.file.name err :: rest)
      ↔ writer90.1.currentSize + rec30.length > writer90.1.rotationLimit) :=
  ⟨by decide, by decide, by decide, by decide, by decide,
    (write_rotates_iff_above_limit okEnv writer90.1 writer90.2 rec30 (by decide) (by decide)).1⟩

theorem logEntry_length (fl : FileLogger) (now : Time) (label msg : GoString) :
    (logEntry fl now label msg).length
      = fl.processIDPrefix.length + (if fl.includeTimestamp then (lineStamp now).length else 0)
        + label.length + msg.length + 2 := by
  unfold logEntry
  by_cases hp : fl.processIDPrefix = [] <;> by_cases ht : fl.includeTimestamp = true <;>
    simp [hp, ht] <;> omega

/-- C2. After a `Write` that has rotated (`Close`, `os.Rename` and
`os.OpenFile` succeeded) and has returned, `currentSize` is the length of the
status line `Rotated log, backup saved as ...` (process prefix, time of day
when the writer prints one, info label, message, CR LF) and `rotationLimit`
is `originalRotationLimit`, whatever `rotationLimit` was before. -/
theorem write_rotation_resets_size_and_limit (env : Env) (fl : FileLogger) (w : World)
    (b : GoString) (hrot : fl.isRotationAllowed = true) (happ : env.write fl.file b = none)
    (hgt : fl.currentSize + b.length > fl.rotationLimit)
    (hc : env.close (fl.file.append b) = none)
    (hr : env.rename fl.file.name (backupName fl.file.name (env.now w.ticks)) = none)
    (ho : env.openFile fl.file.name = none)
    (hret : (Write env fl w b).ret ≠ none) :
    (Write env fl w b).fl.currentSize = (rotatedLine env fl w).length ∧
    (rotatedLine env fl w).length
      = fl.processIDPrefix.length
        + (if fl.includeTimestamp then (lineStamp (env.now (w.ticks + 1))).length else 0)
        + fl.logger.infoLabel.length
        + ("Rotated log, backup saved as ".toList
            ++ env.quote (backupName fl.file.name (env.now w.ticks))).length + 2 ∧
    (Write env fl w b).fl.rotationLimit = fl.originalRotationLimit ∧
    (Write env fl w b).fl.originalRotationLimit = fl.originalRotationLimit := by
  rw [write_guarded env fl w b hrot happ, if_pos hgt] at hret ⊢
  obtain ⟨w₃, -, ht, hrot'⟩ := rotate_reopened env
    { fl with file := fl.file.append b, currentSize := fl.currentSize + b.length } w b.length hc hr ho
  dsimp only at hrot'
  simp only [append_name] at hrot'
  rw [hrot'] at hret ⊢
  obtain ⟨⟨m, err⟩, hm⟩ := Option.ne_none_iff_exists'.mp hret
  have hs := (finishRotation_ret env _ w₃ _ _ m err hm).1
  have hok := finishRotation_ok env _ w₃ fl.file.name _ hs
  rw [ht] at hok
  exact ⟨hok.1, logEntry_length fl _ _ _, hok.2.1, hok.2.2.1⟩

/-- Witness of C2: the limit of `writerDoubled` was doubled to 200 by a failed
`Close`; the write that takes the size from 180 to 210 rotates, and leaves the
size at the 76 bytes of the status line and the limit at 100. -/
theorem write_rotation_resets_size_and_limit_witness :
    writerDoubled.1.isRotationAllowed = true ∧
    okEnv.write writerDoubled.1.file rec30 = none ∧
    writerDoubled.1.currentSize + rec30.length > writerDoubled.1.rotationLimit ∧
    writerDoubled.1.rotationLimit = 200 ∧ writerDoubled.1.originalRotationLimit = 100 ∧
    (rotatedLine okEnv writerDoubled.1 writerDoubled.2).length = 76 ∧
    (Write okEnv writerDoubled.1 writerDoubled.2 rec30).fl.currentSize
      = (rotatedLine okEnv writerDoubled.1 writerDoubled.2).length ∧
    (Write okEnv writerDoubled.1 writerDoubled.2 rec30).fl.rotationLimit
      = writerDoubled.1.originalRotationLimit :=
  ⟨by decide, by decide, by decide, by decide, by decide, by decide,
    (write_rotation_resets_size_and_limit okEnv writerDoubled.1 writerDoubled.2 rec30 (by decide)
      (by decide) (by decide) (by decide) (by decide) (by decide) (by decide)).1,
    (write_rotation_resets_size_and_limit okEnv writerDoubled.1 writerDoubled.2 rec30 (by decide)
      (by decide) (by decide) (by decide) (by decide) (by decide) (by decide)).2.2.1⟩

/-- C3, the code at the failing input. The writer holds 90 bytes under a limit
of 100; a record of 30 bytes is appended in full, the rotation succeeds, and
`Write` returns `(76, nil)`: 76 is the length of the status line, not the 30
bytes of the caller's data that were written. -/
theorem write_returns_status_line_length :
    rec30.length = 30 ∧
    okEnv.write writer90.1.file rec30 = none ∧
    (rotatedLine okEnv writer90.1 writer90.2).length = 76 ∧
    (Write okEnv writer90.1 writer90.2 rec30).ret = some (76, none) := by
  decide

/-- What a `Write` does when the append succeeds with `n` bytes and takes the
size above the limit and `Close` fails with `e`: `rotationLimit` is doubled,
`originalRotationLimit` is unchanged, `currentSize` is the former size plus
`n`, the only call made is the failed `Close` (no rename, no reopening, the
directory is as before) and the handle is the old one. Whenever the call
returns it returns `(n, e)`; it returns if and only if the handle, on which
`Close` has been called, accepts the diagnostic line. -/
theorem write_close_failure (env : Env) (fl : FileLogger) (w : World)
    (b : GoString) (e : GoError) (hrot : fl.isRotationAllowed = true)
    (happ : env.write fl.file b = none)
    (hgt : fl.currentSize + b.length > fl.rotationLimit)
    (hc : env.close (fl.file.append b) = some e) :
    (Write env fl w b).fl.rotationLimit = 2 * fl.rotationLimit ∧
    (Write env fl w b).fl.originalRotationLimit = fl.originalRotationLimit ∧
    (Write env fl w b).fl.currentSize = fl.currentSize + b.length ∧
    (Write env fl w b).w.events = w.events ++ [.close fl.file.name (some e)] ∧
    (Write env fl w b).w.dir = w.dir ∧
    (Write env fl w b).fl.file.name = fl.file.name ∧
    (fl.file.written ++ b) <+: (Write env fl w b).fl.file.written ∧
    (∀ m err, (Write env fl w b).ret = some (m, err) → m = b.length ∧ err = some e) ∧
    ((Write env fl w b).ret = some (b.length, some e) ↔
      env.write (fl.file.append b).close
        (closeFailedLine env fl w e (fl.rotationLimit * 2)) = none) ∧
    ((Write env fl w b).ret = none ↔
      env.write (fl.file.append b).close
        (closeFailedLine env fl w e (fl.rotationLimit * 2)) ≠ none) := by
  rw [write_guarded env fl w b hrot happ, if_pos hgt]
  simp only [rotate, hc]
  have hsame := (logDirect_same env
    { fl with file := (fl.file.append b).close, currentSize := fl.currentSize + b.length,
              rotationLimit := fl.rotationLimit * 2 }
    (w.record (.close fl.file.name (some e))) fl.logger.errorLabel
    ("Unable to close logfile for rotation (".toList ++ e
      ++ "), will attempt next rotation at size ".toList ++ fmtInt (fl.rotationLimit * 2))).fields
  have hwr := logDirect_written env
    { fl with file := (fl.file.append b).close, currentSize := fl.currentSize + b.length,
              rotationLimit := fl.rotationLimit * 2 }
    (w.record (.close fl.file.name (some e))) fl.logger.errorLabel
    ("Unable to close logfile for rotation (".toList ++ e
      ++ "), will attempt next rotation at size ".toList ++ fmtInt (fl.rotationLimit * 2))
  have hret := logDirect_returns env
    { fl with file := (fl.file.append b).close, currentSize := fl.currentSize + b.length,
              rotationLimit := fl.rotationLimit * 2 }
    (w.record (.close fl.file.name (some e))) fl.logger.errorLabel
    ("Unable to close logfile for rotation (".toList ++ e
      ++ "), will attempt next rotation at size ".toList ++ fmtInt (fl.rotationLimit * 2))
  refine ⟨?_, ?_, ?_, ?_, ?_, ?_, ?_, ?_, ?_, ?_⟩
  · exact hsame.2.2.1.trans (mul_comm _ _)
  · exact hsame.2.2.2.1
  · exact hsame.2.1
  · exact (logDirect_events ..).trans rfl
  · exact (logDirect_dir ..).trans rfl
  · exact hsame.1
  · exact hwr
  · intro m err h
    split at h
    · simp only [Option.some.injEq, Prod.mk.injEq] at h
      exact ⟨h.1.symm, h.2.symm⟩
    · exact absurd h (by simp)
  · constructor
    · intro h
      split at h
      · next hr => exact hret.mp hr
      · exact absurd h (by simp)
    · intro hd
      exact if_pos (hret.mpr hd)
  · constructor
    · intro h hd
      split at h
      · exact absurd h (by simp)
      · next hr => exact hr (hret.mpr hd)
    · intro hd
      exact if_neg (fun hr => hd (hret.mp hr))

/-- The lemma `write_close_failure` on a handle that accepts the diagnostic
line: the writer holds 90 bytes under a limit of 100 and `Close` fails; the
call returns the 30 bytes written with the error of `Close`, and the limit is
200. -/
theorem write_close_failure_sample :
    (Write closeFailEnv writer90.1 writer90.2 rec30).fl.rotationLimit = 2 * writer90.1.rotationLimit ∧
    (Write closeFailEnv writer90.1 writer90.2 rec30).ret
      = some (30, some "input/output error".toList) :=
  ⟨(write_close_failure closeFailEnv writer90.1 writer90.2 rec30
      "input/output error".toList (by decide) (by decide) (by decide) (by decide)).1,
    by decide⟩

/-- C8, the code at the failing input. The writer holds 90 bytes under a limit
of 100 on a handle that behaves like `*os.File`. The record of 30 bytes is
appended and takes the size to 120; `Close` fails; the handle, now closed,
rejects the diagnostic line, and `logDirect` calls `fl.logger.Noticef` while
`Write` holds the mutex: the call does not return. The limit has been doubled
to 200 and no rename has been made. -/
theorem write_close_failure_never_returns :
    writer90.1.isRotationAllowed = true ∧
    closedHandleEnv.write writer90.1.file rec30 = none ∧
    writer90.1.currentSize + rec30.length > writer90.1.rotationLimit ∧
    closedHandleEnv.close (writer90.1.file.append rec30) = some "input/output error".toList ∧
    closedHandleEnv.write (writer90.1.file.append rec30).close
      (closeFailedLine closedHandleEnv writer90.1 writer90.2 "input/output error".toList 200)
        = some (0, "file already closed".toList) ∧
    (Write closedHandleEnv writer90.1 writer90.2 rec30).ret = none ∧
    (Write closedHandleEnv writer90.1 writer90.2 rec30).fl.rotationLimit = 200 ∧
    (Write closedHandleEnv writer90.1 writer90.2 rec30).w.events
      = [.close appLog (some "input/output error".toList)] := by
  decide

/-- C10, the claim fails at limit 0. On the writer of an empty log,
`SetSizeLimit(0)` returns nil and leaves rotation enabled with both limits at
0, and the next `Write`, of one byte, rotates the log. -/
theorem setSizeLimit_zero_enables_rotation :
    SetSizeLimit (some freshWriter) 0
      = (true, none, some { freshWriter with isRotationAllowed := true }) ∧
    (setLimit freshWriter 0).fl.isRotationAllowed = true ∧
    okEnv.write (setLimit freshWriter 0).fl.file ['x'] = none ∧
    (Write okEnv (setLimit freshWriter 0).fl emptyWorld ['x']).w.events
      = [.close appLog none,
         .rename appLog "app.log.2024.05.06.07.08.09.000000123".toList none,
         .openFile appLog none] := by
  decide

/-- C10 as amended. `SetSizeLimit(limit)` on a file logger stores `limit` in
`rotationLimit` and in `originalRotationLimit` and sets `isRotationAllowed`,
for every `limit`, positive or not. The call returns, with a nil error, exactly
when the size of the log does not exceed `limit`; otherwise it does not
return, and so it is for every negative `limit`, the size of a file being at
least 0. When the call has returned, a `Write` whose append succeeds enters
the rotation exactly when the size it reaches is above `limit`. -/
theorem setSizeLimit_enables_rotation_when_it_returns (fl : FileLogger) (limit : Int) :
    (SetSizeLimit (some fl) limit).2.2
      = some { fl with isRotationAllowed := true, rotationLimit := limit,
                       originalRotationLimit := limit } ∧
    ((SetSizeLimit (some fl) limit).1 = true ↔ fl.currentSize ≤ limit) ∧
    (fl.currentSize ≤ limit → (SetSizeLimit (some fl) limit).2.1 = none) ∧
    (0 ≤ fl.currentSize → limit < 0 → (SetSizeLimit (some fl) limit).1 = false) ∧
    (fl.currentSize ≤ limit →
      ∀ (env : Env) (w : World) (b : GoString), env.write fl.file b = none →
        ((∃ err rest, (Write env (setLimit fl limit).fl w b).w.events
            = w.events ++ Event.close fl.file.name err :: rest)
          ↔ fl.currentSize + b.length > limit)) := by
  have hfl : (setLimit fl limit).fl
      = { fl with isRotationAllowed := true, rotationLimit := limit,
                  originalRotationLimit := limit } := by
    simp only [setLimit]
    split <;> rfl
  have hret : (SetSizeLimit (some fl) limit).1 = true ↔ fl.currentSize ≤ limit := by
    simp only [SetSizeLimit, setLimit]
    by_cases hle : fl.currentSize ≤ limit
    · rw [if_neg (by simpa using hle)]
      simp [hle]
    · rw [if_pos (by simpa using hle)]
      simp [hle]
  refine ⟨?_, hret, ?_, ?_, ?_⟩
  · simp only [SetSizeLimit, hfl]
  · intro _
    rfl
  · intro h0 hneg
    have hn : ¬ (SetSizeLimit (some fl) limit).1 = true := fun h => by
      have := hret.mp h
      omega
    simpa using hn
  · intro _ env w b happ
    have := write_enters_rotation_iff env (setLimit fl limit).fl w b (by rw [hfl])
      (by rw [hfl]; exact happ)
    rw [hfl] at this ⊢
    exact this

/-! ## Lemmas on the purge -/

theorem scanBackups_eq (logBase : GoString) (dir : List DirEntry) :
    scanBackups logBase dir = (dir.filter (isBackup logBase)).map (fun e => e.name) := by
  induction dir with
  | nil => rfl
  | cons e es ih =>
    rw [scanBackups, List.filter_cons, isBackup]
    split
    · simpa using ih
    · split
      · split <;> simp_all
      · simpa using ih

theorem cutPrefix_eq_some {s p r : GoString} (h : cutPrefix s p = some r) : s = p ++ r := by
  induction p generalizing s with
  | nil => simpa [cutPrefix] using h
  | cons c p ih =>
    cases s with
    | nil => simp [cutPrefix] at h
    | cons a s =>
      simp only [cutPrefix] at h
      split at h
      · next hac => rw [hac, ih h]; rfl
      · exact absurd h (by simp)

theorem isBackup_spec {logBase : GoString} {e : DirEntry} (h : isBackup logBase e = true) :
    e.isDir = false ∧ e.name ≠ logBase ∧
      ∃ stamp, e.name = logBase ++ '.' :: stamp ∧
        (timeParse (replaceN '.' ':' 5 stamp)).isSome = true := by
  unfold isBackup at h
  split at h
  · exact absurd h (by simp)
  · next hc =>
    simp only [not_or] at hc
    split at h
    · next stamp hs =>
      refine ⟨by simpa using hc.1, hc.2.1, stamp, ?_, h⟩
      simpa using cutPrefix_eq_some hs
    · exact absurd h (by simp)

theorem purgeLoop_ok (env : Env) (logDir : GoString) (hwr : ∀ f line, env.write f line = none)
    (backups : List GoString) (hrem : ∀ name ∈ backups, env.remove logDir name = none)
    (k : Nat) (hk : k ≤ backups.length) (fl : FileLogger) (w : World) :
    (purgeLoop env logDir k backups fl w).returns = true ∧
    (purgeLoop env logDir k backups fl w).w.events
      = w.events ++ (backups.take k).map (fun n => Event.remove logDir n none) ∧
    (purgeLoop env logDir k backups fl w).w.dir
      = w.dir.filter (fun e => decide (e.name ∉ backups.take k)) := by
  induction backups generalizing k fl w with
  | nil =>
    have : k = 0 := by simpa using hk
    subst this
    simp [purgeLoop]
  | cons name rest ih =>
    cases k with
    | zero => simp [purgeLoop]
    | succ k =>
      have hr := hrem name (List.mem_cons_self _ _)
      have hd := (logDirect_returns env fl ((w.removed name).record (.remove logDir name none))
        fl.logger.infoLabel ("Purged log file ".toList ++ env.quote name)).mpr (hwr _ _)
      simp only [purgeLoop, hr, hd, if_true]
      obtain ⟨h₁, h₂, h₃⟩ := ih (fun n hn => hrem n (List.mem_cons_of_mem _ hn)) k
        (by simpa using hk)
        (logDirect env fl ((w.removed name).record (.remove logDir name none))
          fl.logger.infoLabel ("Purged log file ".toList ++ env.quote name)).fl
        (logDirect env fl ((w.removed name).record (.remove logDir name none))
          fl.logger.infoLabel ("Purged log file ".toList ++ env.quote name)).w
      refine ⟨h₁, ?_, ?_⟩
      · rw [h₂, logDirect_events]; simp
      · rw [h₃, logDirect_dir]
        simpa using removeEntry_filter name (rest.take k) w.dir

theorem filter_not_mem_take_of_nodup (l : List GoString) (h : l.Nodup)
    (k : Nat) : l.filter (fun a => decide (a ∉ l.take k)) = l.drop k := by
  have hd : List.Disjoint (l.take k) (l.drop k) := by
    have := h
    rw [← List.take_append_drop k l, List.nodup_append] at this
    exact this.2.2
  conv_lhs => rw [← List.take_append_drop k l]
  rw [List.filter_append]
  have h₁ : (l.take k).filter (fun a => decide (a ∉ (l.take k ++ l.drop k).take k)) = [] := by
    rw [List.filter_eq_nil_iff]
    intro a ha
    simpa [List.take_append_drop] using ha
  have h₂ : (l.drop k).filter (fun a => decide (a ∉ (l.take k ++ l.drop k).take k)) = l.drop k := by
    rw [List.filter_eq_self]
    intro a ha
    simp only [List.take_append_drop, decide_not, Bool.not_eq_true', decide_eq_false_iff_not]
    exact fun hin => hd hin ha
  rw [h₁, h₂, List.nil_append]

theorem scanBackups_nodup (logBase : GoString) (dir : List DirEntry)
    (h : (dir.map (fun e => e.name)).Nodup) : (scanBackups logBase dir).Nodup := by
  rw [scanBackups_eq]
  exact h.sublist ((List.filter_sublist dir).map _)

theorem scanBackups_filter (logBase : GoString) (dir : List DirEntry) (p : GoString → Bool) :
    scanBackups logBase (dir.filter (fun e => p e.name))
      = (scanBackups logBase dir).filter p := by
  rw [scanBackups_eq, scanBackups_eq, List.filter_map, List.filter_filter, List.filter_filter]
  congr 2
  funext e
  simp [Bool.and_comm]

/-- What `logPurge` does on a run without fault. With `maxBackupFiles = K ≥ 1`,
on a directory whose listing succeeds, when every removal succeeds and the
handle accepts the status lines: with `count` the number of backups in the
listing, if
`count > K - 1` the calls to `os.Remove` are exactly those of the first
`count - (K - 1)` backups of the listing, in order, these entries are gone
and the backups left are the last `K - 1`; if `count ≤ K - 1` nothing is
removed. -/
theorem logPurge_removes_oldest_excess (env : Env) (fl : FileLogger) (w : World)
    (fname : GoString) (K : Nat) (hK : 1 ≤ K) (hmax : fl.maxBackupFiles = K)
    (hread : env.readDir (env.dirOf fname) = none)
    (hrem : ∀ name ∈ scanBackups (filepathBase fname) w.dir,
      env.remove (env.dirOf fname) name = none)
    (hwr : ∀ f line, env.write f line = none)
    (hnodup : (w.dir.map (fun e => e.name)).Nodup) :
    (logPurge env fl w fname).returns = true ∧
    ((scanBackups (filepathBase fname) w.dir).length > K - 1 →
      (logPurge env fl w fname).w.events
        = w.events ++ Event.readDir (env.dirOf fname) none ::
          ((scanBackups (filepathBase fname) w.dir).take
            ((scanBackups (filepathBase fname) w.dir).length - (K - 1))).map
            (fun n => Event.remove (env.dirOf fname) n none) ∧
      (logPurge env fl w fname).w.dir
        = w.dir.filter (fun e => decide (e.name ∉ (scanBackups (filepathBase fname) w.dir).take
            ((scanBackups (filepathBase fname) w.dir).length - (K - 1)))) ∧
      scanBackups (filepathBase fname) (logPurge env fl w fname).w.dir
        = (scanBackups (filepathBase fname) w.dir).drop
            ((scanBackups (filepathBase fname) w.dir).length - (K - 1)) ∧
      (scanBackups (filepathBase fname) (logPurge env fl w fname).w.dir).length = K - 1) ∧
    ((scanBackups (filepathBase fname) w.dir).length ≤ K - 1 →
      (logPurge env fl w fname).w.dir = w.dir ∧
      (logPurge env fl w fname).w.events = w.events ++ [Event.readDir (env.dirOf fname) none]) := by
  simp only [logPurge, hread, hmax, record_dir]
  by_cases hgt : (scanBackups (filepathBase fname) w.dir).length > K - 1
  · have hcond : ((scanBackups (filepathBase fname) w.dir).length : Int) > (K : Int) - 1 := by
      omega
    have hk : (((scanBackups (filepathBase fname) w.dir).length : Int) - ((K : Int) - 1)).toNat
        = (scanBackups (filepathBase fname) w.dir).length - (K - 1) := by omega
    rw [if_pos hcond, hk]
    obtain ⟨h₁, h₂, h₃⟩ := purgeLoop_ok env (env.dirOf fname) hwr
      (scanBackups (filepathBase fname) w.dir) hrem
      ((scanBackups (filepathBase fname) w.dir).length - (K - 1)) (Nat.sub_le _ _) fl
      (w.record (.readDir (env.dirOf fname) none))
    refine ⟨h₁, ?_, ?_⟩
    · intro _
      have hdrop : scanBackups (filepathBase fname)
          (purgeLoop env (env.dirOf fname)
            ((scanBackups (filepathBase fname) w.dir).length - (K - 1))
            (scanBackups (filepathBase fname) w.dir) fl
            (w.record (.readDir (env.dirOf fname) none))).w.dir
          = (scanBackups (filepathBase fname) w.dir).drop
            ((scanBackups (filepathBase fname) w.dir).length - (K - 1)) := by
        rw [h₃, record_dir]
        rw [scanBackups_filter (filepathBase fname) w.dir
          (fun n => decide (n ∉ (scanBackups (filepathBase fname) w.dir).take
            ((scanBackups (filepathBase fname) w.dir).length - (K - 1))))]
        exact filter_not_mem_take_of_nodup _ (scanBackups_nodup _ _ hnodup) _
      refine ⟨?_, ?_, hdrop, ?_⟩
      · rw [h₂]; simp
      · rw [h₃]; rfl
      · rw [hdrop, List.length_drop]; omega
    · intro hle
      exact absurd hgt (by omega)
  · have hcond : ¬ ((scanBackups (filepathBase fname) w.dir).length : Int) > (K : Int) - 1 := by
      omega
    rw [if_neg hcond]
    refine ⟨rfl, ?_, ?_⟩
    · intro h
      exact absurd h hgt
    · intro _
      exact ⟨rfl, rfl⟩

/-- The lemma `logPurge_removes_oldest_excess` on a sample: a maximum of 2 and
a listing with two backups; the older one is removed and the newer one is
left. -/
theorem logPurge_removes_oldest_excess_sample :
    (1 ≤ 2) ∧ (setMaxNumFiles limitedWriter 2).maxBackupFiles = ((2 : Nat) : Int) ∧
    okEnv.readDir (okEnv.dirOf appLog) = none ∧
    (∀ name ∈ scanBackups (filepathBase appLog) twoBackupsWorld.dir,
      okEnv.remove (okEnv.dirOf appLog) name = none) ∧
    (∀ f line, okEnv.write f line = none) ∧
    (twoBackupsWorld.dir.map (fun e => e.name)).Nodup ∧
    scanBackups (filepathBase appLog) twoBackupsWorld.dir
      = ["app.log.2023.01.01.00.00.00.000000001".toList,
         "app.log.2023.01.01.00.00.00.000000002".toList] ∧
    scanBackups (filepathBase appLog)
        (logPurge okEnv (setMaxNumFiles limitedWriter 2) twoBackupsWorld appLog).w.dir
      = (scanBackups (filepathBase appLog) twoBackupsWorld.dir).drop
          ((scanBackups (filepathBase appLog) twoBackupsWorld.dir).length - (2 - 1)) ∧
    (logPurge okEnv (setMaxNumFiles limitedWriter 2) twoBackupsWorld appLog).w.dir
      = [⟨appLog, false⟩, ⟨"app.log.2023.01.01.00.00.00.000000002".toList, false⟩,
         ⟨"app.log.old".toList, false⟩] :=
  ⟨by decide, by decide, by decide, fun _ _ => rfl, fun _ _ => rfl, by decide, by decide,
    ((logPurge_removes_oldest_excess okEnv (setMaxNumFiles limitedWriter 2) twoBackupsWorld appLog 2
      (by decide) (by decide) (by decide) (fun _ _ => rfl) (fun _ _ => rfl) (by decide)).2.1
        (by decide)).2.2.1,
    by decide⟩

set_option maxRecDepth 8192 in
/-- C5, the code at the failing input. The writer holds 90 bytes under a limit
of 100 with a maximum of 1 backup, in a directory with two backups, on a
platform where a file cannot grow beyond 128 bytes and every other call
succeeds. A record of 30 bytes is appended and the log is rotated: the status
line of the rotation (76 bytes) is written to the new file and `logPurge`
finds three backups, all in excess. The first removal succeeds; the line
`Purged log file ...` does not fit, and `logDirect` calls
`fl.logger.Noticef` while `Write` holds the mutex: the call does not return.
One backup of the three has been removed and two are left, where no removal
has failed. The same happens in `logPurge` called on a writer whose file
holds 100 bytes: one of the two backups is removed, with success, and the
other is left. On the platform where the handle accepts every line, the three
backups are removed. -/
theorem logPurge_stops_after_first_removal :
    (setMaxNumFiles writer90.1 1).maxBackupFiles = 1 ∧
    quotaEnv.write (setMaxNumFiles writer90.1 1).file rec30 = none ∧
    (Write quotaEnv (setMaxNumFiles writer90.1 1) twoBackupsWorld rec30).ret = none ∧
    (Write quotaEnv (setMaxNumFiles writer90.1 1) twoBackupsWorld rec30).w.events
      = [.close appLog none,
         .rename appLog "app.log.2024.05.06.07.08.09.000000123".toList none,
         .openFile appLog none,
         .readDir ['.'] none,
         .remove ['.'] "app.log.2023.01.01.00.00.00.000000001".toList none] ∧
    (Write quotaEnv (setMaxNumFiles writer90.1 1) twoBackupsWorld rec30).fl.file.written.length
      = 76 ∧
    scanBackups (filepathBase appLog)
        (Write quotaEnv (setMaxNumFiles writer90.1 1) twoBackupsWorld rec30).w.dir
      = ["app.log.2023.01.01.00.00.00.000000002".toList,
         "app.log.2024.05.06.07.08.09.000000123".toList] ∧
    scanBackups (filepathBase appLog) twoBackupsWorld.dir
      = ["app.log.2023.01.01.00.00.00.000000001".toList,
         "app.log.2023.01.01.00.00.00.000000002".toList] ∧
    (logPurge quotaEnv
        { setMaxNumFiles limitedWriter 1 with file := ⟨appLog, List.replicate 100 'x', false⟩ }
        twoBackupsWorld appLog).returns = false ∧
    (logPurge quotaEnv
        { setMaxNumFiles limitedWriter 1 with file := ⟨appLog, List.replicate 100 'x', false⟩ }
        twoBackupsWorld appLog).w.events
      = [.readDir ['.'] none,
         .remove ['.'] "app.log.2023.01.01.00.00.00.000000001".toList none] ∧
    scanBackups (filepathBase appLog)
        (logPurge quotaEnv
          { setMaxNumFiles limitedWriter 1 with file := ⟨appLog, List.replicate 100 'x', false⟩ }
          twoBackupsWorld appLog).w.dir
      = ["app.log.2023.01.01.00.00.00.000000002".toList] ∧
    scanBackups (filepathBase appLog)
        (Write okEnv (setMaxNumFiles writer90.1 1) twoBackupsWorld rec30).w.dir = [] := by
  decide

/-- C7, the claim fails on a name with six components. With a maximum of 1,
`logPurge` removes `app.log.2024.01.02.03.04.05`, a file whose suffix after
`app.log.` has six components separated by periods, not seven: `time.Parse`
accepts a value without fraction of a second against the layout
`2006:01:02:15:04:05.999999999`. -/
theorem logPurge_removes_six_component_name :
    (⟨"app.log.2024.01.02.03.04.05".toList, false⟩ : DirEntry) ∈ mixedWorld.dir ∧
    (⟨"app.log.2024.01.02.03.04.05".toList, false⟩ : DirEntry)
      ∉ (logPurge okEnv (setMaxNumFiles limitedWriter 1) mixedWorld appLog).w.dir ∧
    cutPrefix "app.log.2024.01.02.03.04.05".toList (filepathBase appLog ++ ['.'])
      = some "2024.01.02.03.04.05".toList ∧
    dotComponents "2024.01.02.03.04.05".toList = 6 ∧
    (timeParse (replaceN '.' ':' 5 "2024.01.02.03.04.05".toList)).isSome = true := by
  decide

/-- C7 as amended. In a directory whose entries have distinct names, `logPurge`
removes an entry only if it is not a directory, its name differs from the base
name of the log, and its name is the base name, a period and a suffix that
`time.Parse` accepts against the layout `2006:01:02:15:04:05.999999999` once
its first five periods are colons; every other entry is still present after
the purge, and no entry is added. -/
theorem logPurge_removes_only_parsed_backups (env : Env) (fl : FileLogger) (w : World)
    (fname : GoString) (hnodup : (w.dir.map (fun e => e.name)).Nodup) :
    (∀ e ∈ w.dir, e ∉ (logPurge env fl w fname).w.dir →
      e.isDir = false ∧ e.name ≠ filepathBase fname ∧
        ∃ stamp, e.name = filepathBase fname ++ '.' :: stamp ∧
          (timeParse (replaceN '.' ':' 5 stamp)).isSome = true) ∧
    (∀ e ∈ (logPurge env fl w fname).w.dir, e ∈ w.dir) := by
  obtain ⟨removed, hpre, hdir⟩ := logPurge_dir env fl w fname
  rw [hdir]
  refine ⟨?_, ?_⟩
  · intro e he hne
    have hmem : e.name ∈ removed := by
      by_contra hnot
      exact hne (List.mem_filter.mpr ⟨he, by simpa using hnot⟩)
    have hb : e.name ∈ scanBackups (filepathBase fname) w.dir := hpre.subset hmem
    rw [scanBackups_eq, List.mem_map] at hb
    obtain ⟨e', he', hname⟩ := hb
    have heq : e' = e :=
      List.inj_on_of_nodup_map hnodup (List.mem_filter.mp he').1 he hname
    subst heq
    exact isBackup_spec (List.mem_filter.mp he').2
  · intro e he
    exact (List.mem_filter.mp he).1

/-- Witness of C7: with a maximum of 1 the backup of 2023 is removed, and it is
a file named `app.log.` and a stamp that parses; the log file, `app.log.1`,
`app.log.old`, `app.logx` and the directory named like a backup are left. -/
theorem logPurge_removes_only_parsed_backups_witness :
    (mixedWorld.dir.map (fun e => e.name)).Nodup ∧
    ((⟨"app.log.2023.01.01.00.00.00.000000001".toList, false⟩ : DirEntry) ∈ mixedWorld.dir ∧
      (⟨"app.log.2023.01.01.00.00.00.000000001".toList, false⟩ : DirEntry)
        ∉ (logPurge okEnv (setMaxNumFiles limitedWriter 1) mixedWorld appLog).w.dir) ∧
    (∃ stamp, "app.log.2023.01.01.00.00.00.000000001".toList = filepathBase appLog ++ '.' :: stamp ∧
      (timeParse (replaceN '.' ':' 5 stamp)).isSome = true) ∧
    (logPurge okEnv (setMaxNumFiles limitedWriter 1) mixedWorld appLog).w.dir
      = [⟨appLog, false⟩, ⟨"app.log.1".toList, false⟩,
         ⟨"app.log.2025.01.01.00.00.00.000000001".toList, true⟩,
         ⟨"app.log.old".toList, false⟩, ⟨"app.logx".toList, false⟩] :=
  ⟨by decide, by decide,
    ((logPurge_removes_only_parsed_backups okEnv (setMaxNumFiles limitedWriter 1) mixedWorld appLog
      (by decide)).1 ⟨"app.log.2023.01.01.00.00.00.000000001".toList, false⟩ (by decide)
        (by decide)).2.2,
    by decide⟩

/-! ## Lemmas on the order of names -/

theorem strLess_irrefl (x : GoString) : strLess x x = false := by
  induction x with
  | nil => rfl
  | cons a x ih => simp [strLess, ih]

theorem strLess_append_left (p x y : GoString) : strLess (p ++ x) (p ++ y) = strLess x y := by
  induction p with
  | nil => rfl
  | cons a p ih => simp [strLess, ih]

theorem strLess_append_of_length_eq (x x' r r' : GoString) (h : x.length = x'.length) :
    strLess (x ++ r) (x' ++ r') = if x = x' then strLess r r' else strLess x x' := by
  induction x generalizing x' with
  | nil =>
    cases x' with
    | nil => simp
    | cons b x' => simp at h
  | cons a x ih =>
    cases x' with
    | nil => simp at h
    | cons b x' =>
      have hl : x.length = x'.length := by simpa using h
      simp only [List.cons_append, strLess, ih x' hl]
      by_cases hab : a.toNat < b.toNat
      · have : a ≠ b := fun heq => by simp [heq] at hab
        simp [hab, this]
      · by_cases hba : b.toNat < a.toNat
        · have : a ≠ b := fun heq => by simp [heq] at hba
          simp [hab, hba, this]
        · have hn : a.toNat = b.toNat := by omega
          have : a = b := by rw [← Char.ofNat_toNat a, ← Char.ofNat_toNat b, hn]
          subst this
          simpa using ih x' hl

theorem digitChar_toNat (d : Nat) (h : d < 10) : (Nat.digitChar d).toNat = 48 + d := by
  interval_cases d <;> rfl

theorem digitsFixed_length (w n : Nat) : (digitsFixed w n).length = w := by
  induction w generalizing n with
  | zero => rfl
  | succ w ih => simp [digitsFixed, ih]

theorem digitsFixed_less (w a b : Nat) (ha : a < 10 ^ w) (hb : b < 10 ^ w) :
    (strLess (digitsFixed w a) (digitsFixed w b) = true ↔ a < b) ∧
      (digitsFixed w a = digitsFixed w b ↔ a = b) := by
  induction w generalizing a b with
  | zero =>
    have ha' : a = 0 := by simpa using ha
    have hb' : b = 0 := by simpa using hb
    subst ha' hb'
    simp [digitsFixed, strLess]
  | succ w ih =>
    have hq : a / 10 < 10 ^ w := by
      rw [Nat.div_lt_iff_lt_mul (by norm_num)]; rw [pow_succ] at ha; exact ha
    have hq' : b / 10 < 10 ^ w := by
      rw [Nat.div_lt_iff_lt_mul (by norm_num)]; rw [pow_succ] at hb; exact hb
    obtain ⟨ihl, ihe⟩ := ih (a / 10) (b / 10) hq hq'
    have hda := digitChar_toNat (a % 10) (Nat.mod_lt _ (by norm_num))
    have hdb := digitChar_toNat (b % 10) (Nat.mod_lt _ (by norm_num))
    have hlast : (strLess [Nat.digitChar (a % 10)] [Nat.digitChar (b % 10)] = true)
        ↔ a % 10 < b % 10 := by
      simp only [strLess, hda, hdb]
      by_cases h : a % 10 < b % 10
      · simp [h]
      · simp [h]
    have hinj : Nat.digitChar (a % 10) = Nat.digitChar (b % 10) ↔ a % 10 = b % 10 := by
      constructor
      · intro h
        have := congrArg Char.toNat h
        rw [hda, hdb] at this
        omega
      · intro h; rw [h]
    simp only [digitsFixed]
    constructor
    · rw [strLess_append_of_length_eq _ _ _ _
        ((digitsFixed_length w _).trans (digitsFixed_length w _).symm)]
      by_cases he : digitsFixed w (a / 10) = digitsFixed w (b / 10)
      · rw [if_pos he, hlast]
        have := ihe.mp he
        omega
      · rw [if_neg he, ihl]
        have : a / 10 ≠ b / 10 := fun h => he (ihe.mpr h)
        omega
    · constructor
      · intro h
        have h₁ := List.append_inj_left' h (by simp)
        have h₂ := List.append_inj_right' h (by simp)
        have e₁ := ihe.mp h₁
        have e₂ := hinj.mp (by simpa using h₂)
        omega
      · intro h; rw [h]

theorem fmtZeroPad_length (w n : Nat) (h : n < 10 ^ w) : (fmtZeroPad w n).length = w := by
  simp [fmtZeroPad, h, digitsFixed_length]

theorem strLess_block (w a b : Nat) (ha : a < 10 ^ w) (hb : b < 10 ^ w) (r r' : GoString) :
    strLess (fmtZeroPad w a ++ r) (fmtZeroPad w b ++ r') = true
      ↔ a < b ∨ (a = b ∧ strLess r r' = true) := by
  obtain ⟨hl, he⟩ := digitsFixed_less w a b ha hb
  simp only [fmtZeroPad, ha, hb, if_true]
  rw [strLess_append_of_length_eq _ _ _ _
    ((digitsFixed_length w _).trans (digitsFixed_length w _).symm)]
  by_cases h : digitsFixed w a = digitsFixed w b
  · rw [if_pos h]
    have := he.mp h
    constructor
    · intro hr; exact Or.inr ⟨this, hr⟩
    · rintro (hlt | ⟨-, hr⟩)
      · omega
      · exact hr
  · rw [if_neg h, hl]
    have : a ≠ b := fun hab => h (he.mpr hab)
    constructor
    · intro hlt; exact Or.inl hlt
    · rintro (hlt | ⟨hab, -⟩)
      · exact hlt
      · exact absurd hab this

theorem strLess_dot (r r' : GoString) : strLess ('.' :: r) ('.' :: r') = strLess r r' := by
  simp [strLess]

/-- C9. For every path and every two times given by components in the ranges
of the calendar (year 0 to 9999, month 1 to 12, day 1 to 31, hour 0 to 23,
minute and second 0 to 59, nanosecond 0 to 999999999), the backup name of the
first is byte-wise smaller than that of the second if and only if the first
time is earlier, component by component; and each name is the path followed
by 30 characters. -/
theorem backupName_order_is_chronological (path : GoString) (t₁ t₂ : Time)
    (h₁ : t₁.inRange) (h₂ : t₂.inRange) :
    (strLess (backupName path t₁) (backupName path t₂) = true ↔ t₁.before t₂) ∧
    (backupName path t₁).length = path.length + 30 ∧
    (backupName path t₂).length = path.length + 30 := by
  obtain ⟨y₁, m₁, d₁, hh₁, mi₁, s₁, n₁⟩ := t₁
  obtain ⟨y₂, m₂, d₂, hh₂, mi₂, s₂, n₂⟩ := t₂
  simp only [Time.inRange] at h₁ h₂
  obtain ⟨a₁, -, a₂, -, a₃, a₄, a₅, a₆, a₇⟩ := h₁
  obtain ⟨b₁, -, b₂, -, b₃, b₄, b₅, b₆, b₇⟩ := h₂
  refine ⟨?_, ?_, ?_⟩
  · simp only [backupName, List.append_assoc, List.singleton_append, List.cons_append, List.nil_append,
      strLess_append_left, strLess_dot, Time.before]
    rw [strLess_block 4 y₁ y₂ (by omega) (by omega), strLess_dot,
      strLess_block 2 m₁ m₂ (by omega) (by omega), strLess_dot,
      strLess_block 2 d₁ d₂ (by omega) (by omega), strLess_dot,
      strLess_block 2 hh₁ hh₂ (by omega) (by omega), strLess_dot,
      strLess_block 2 mi₁ mi₂ (by omega) (by omega), strLess_dot,
      strLess_block 2 s₁ s₂ (by omega) (by omega), strLess_dot]
    have hlast := strLess_block 9 n₁ n₂ (by omega) (by omega) [] []
    simp only [List.append_nil, strLess] at hlast
    rw [hlast]
    simp
  · simp only [backupName, List.length_append, List.length_singleton]
    rw [fmtZeroPad_length 4 _ (by omega), fmtZeroPad_length 2 _ (by omega),
      fmtZeroPad_length 2 _ (by omega), fmtZeroPad_length 2 _ (by omega),
      fmtZeroPad_length 2 _ (by omega), fmtZeroPad_length 2 _ (by omega),
      fmtZeroPad_length 9 _ (by omega)]
  · simp only [backupName, List.length_append, List.length_singleton]
    rw [fmtZeroPad_length 4 _ (by omega), fmtZeroPad_length 2 _ (by omega),
      fmtZeroPad_length 2 _ (by omega), fmtZeroPad_length 2 _ (by omega),
      fmtZeroPad_length 2 _ (by omega), fmtZeroPad_length 2 _ (by omega),
      fmtZeroPad_length 9 _ (by omega)]

/-- Witness of C9: two readings of the clock one second apart, the earlier one
with the larger count of nanoseconds. -/
theorem backupName_order_is_chronological_witness :
    (⟨2024, 5, 6, 7, 8, 9, 999999999⟩ : Time).inRange ∧
    (⟨2024, 5, 6, 7, 8, 10, 0⟩ : Time).inRange ∧
    (strLess (backupName appLog ⟨2024, 5, 6, 7, 8, 9, 999999999⟩)
        (backupName appLog ⟨2024, 5, 6, 7, 8, 10, 0⟩) = true
      ↔ (⟨2024, 5, 6, 7, 8, 9, 999999999⟩ : Time).before ⟨2024, 5, 6, 7, 8, 10, 0⟩) ∧
    backupName appLog ⟨2024, 5, 6, 7, 8, 9, 999999999⟩
      = "app.log.2024.05.06.07.08.09.999999999".toList :=
  ⟨by simp [Time.inRange], by simp [Time.inRange],
    (backupName_order_is_chronological appLog ⟨2024, 5, 6, 7, 8, 9, 999999999⟩
      ⟨2024, 5, 6, 7, 8, 10, 0⟩ (by simp [Time.inRange]) (by simp [Time.inRange])).1,
    by decide⟩

set_option maxRecDepth 4096 in
/-- C4, the code at the failing input. A writer opened on the empty file
`app.log`, in a directory with two old backups, gets `setLimit(100)`,
`setMaxNumFiles(1)` and four records of 30 bytes. Every call to the system
succeeds. The fourth write rotates and purges three backups; the new handle
has received 265 bytes, the status line of the rotation and three lines
`Purged log file ...`, and `currentSize` is 76, the length of the first line
alone. -/
theorem currentSize_misses_purge_lines :
    NewFileLogger okEnv twoBackupsWorld appLog false false false false
      = some (freshWriter, twoBackupsWorld.record (.openFile appLog none)) ∧
    (setLimit freshWriter 100).returns = true ∧
    (∀ e ∈ (runWrites okEnv (setMaxNumFiles (setLimit freshWriter 100).fl 1,
        twoBackupsWorld.record (.openFile appLog none)) [rec30, rec30, rec30, rec30]).2.events,
      e.err = none) ∧
    (runWrites okEnv (setMaxNumFiles (setLimit freshWriter 100).fl 1,
        twoBackupsWorld.record (.openFile appLog none))
        [rec30, rec30, rec30, rec30]).1.file.written.length = 265 ∧
    (runWrites okEnv (setMaxNumFiles (setLimit freshWriter 100).fl 1,
        twoBackupsWorld.record (.openFile appLog none))
        [rec30, rec30, rec30, rec30]).1.currentSize = 76 := by
  decide

set_option maxRecDepth 4096 in
/-- C6, the code at the failing input. After `SetMaxNumFiles(3)`, in a
directory that holds two backups, a `Write` rotates with success. Of the two
earlier backups only the newer one is left, beside the backup just made: two
archived files, not three. After `SetMaxNumFiles(1)` no backup is left at
all: the backup just made is removed too. -/
theorem rotation_keeps_one_backup_less :
    SetMaxNumFiles (some writer90.1) 3 = (none, some (setMaxNumFiles writer90.1 3)) ∧
    scanBackups (filepathBase appLog) twoBackupsWorld.dir
      = ["app.log.2023.01.01.00.00.00.000000001".toList,
         "app.log.2023.01.01.00.00.00.000000002".toList] ∧
    (Write okEnv (setMaxNumFiles writer90.1 3) twoBackupsWorld rec30).ret = some (76, none) ∧
    (∀ e ∈ (Write okEnv (setMaxNumFiles writer90.1 3) twoBackupsWorld rec30).w.events,
      e.err = none) ∧
    scanBackups (filepathBase appLog)
        (Write okEnv (setMaxNumFiles writer90.1 3) twoBackupsWorld rec30).w.dir
      = ["app.log.2023.01.01.00.00.00.000000002".toList,
         "app.log.2024.05.06.07.08.09.000000123".toList] ∧
    scanBackups (filepathBase appLog)
        (Write okEnv (setMaxNumFiles writer90.1 1) twoBackupsWorld rec30).w.dir = [] := by
  decide

/-! ## Lemmas on the severity methods -/

theorem sprintfLoop_literal {σ : Type} (P : Printer σ) (lit : GoString) (h : '%' ∉ lit)
    (fuel : Nat) (format : GoString) (s : σ) :
    sprintfLoop P (fuel + lit.length) (lit ++ format) s = lit ++ sprintfLoop P fuel format s := by
  induction lit with
  | nil => rfl
  | cons c lit ih =>
    have hc : c ≠ '%' := fun e => h (by simp [e])
    have hl : '%' ∉ lit := fun m => h (List.mem_cons_of_mem _ m)
    show sprintfLoop P (fuel + lit.length + 1) (c :: (lit ++ format)) s = _
    rw [sprintfLoop, if_neg hc, ih hl]
    rfl

/-- The fuel `sprintf` gives is enough: more fuel does not change the text. -/
theorem sprintfLoop_fuel {σ : Type} (P : Printer σ) (fuel : Nat) (format : GoString) (s : σ)
    (h : format.length < fuel) :
    sprintfLoop P fuel format s = sprintfLoop P (format.length + 1) format s := by
  induction fuel using Nat.strongRecOn generalizing format s with
  | _ fuel ih =>
    cases fuel with
    | zero => omega
    | succ fuel =>
      cases format with
      | nil => rfl
      | cons c rest =>
        have hr : rest.length < fuel := by simpa using h
        simp only [sprintfLoop, List.length_cons]
        split
        · have hd : (rest.drop (P.verb rest s).2.1).length < fuel := by
            rw [List.length_drop]; omega
          have hd2 : (rest.drop (P.verb rest s).2.1).length < rest.length + 1 := by
            rw [List.length_drop]; omega
          rw [ih fuel (Nat.lt_succ_self _) _ _ hd, ih (rest.length + 1) (by omega) _ _ hd2]
        · rw [ih fuel (Nat.lt_succ_self _) _ _ hr]

theorem sprintf_literal {σ : Type} (P : Printer σ) (lit : GoString) (h : '%' ∉ lit)
    (format : GoString) (s : σ) :
    sprintf P (lit ++ format) s = lit ++ sprintf P format s := by
  unfold sprintf
  rw [List.length_append, show lit.length + format.length + 1 = format.length + 1 + lit.length by
    omega]
  exact sprintfLoop_literal P lit h _ format s

theorem endLine_last (buf : GoString) : (endLine buf).getLast? = some '\n' := by
  unfold endLine
  split
  · assumption
  · simp

theorem endLine_prefix (buf : GoString) : buf <+: endLine buf := by
  unfold endLine
  split
  · exact List.prefix_refl _
  · exact List.prefix_append _ _

theorem endLine_cases (buf : GoString) : endLine buf = buf ∨ endLine buf = buf ++ ['\n'] := by
  unfold endLine
  split
  · exact Or.inl rfl
  · exact Or.inr rfl

theorem printf_labelled {σ : Type} (P : Printer σ) (out : StdLog) (now : Time)
    (label : GoString) (h : '%' ∉ label) (format : GoString) (s : σ) :
    out.Printf P now (label ++ format) s
      = endLine (formatHeader out.pre out.flag now ++ label ++ sprintf P format s) := by
  unfold StdLog.Printf
  rw [sprintf_literal P label h, List.append_assoc]

/-- The labels of `setPlainLabelFormats` hold no `%`. -/
theorem setPlainLabelFormats_no_verb (l : Logger) :
    '%' ∉ (setPlainLabelFormats l).infoLabel ∧ '%' ∉ (setPlainLabelFormats l).warnLabel ∧
    '%' ∉ (setPlainLabelFormats l).errorLabel ∧ '%' ∉ (setPlainLabelFormats l).fatalLabel ∧
    '%' ∉ (setPlainLabelFormats l).debugLabel ∧ '%' ∉ (setPlainLabelFormats l).traceLabel := by
  simp only [setPlainLabelFormats]
  decide

/-- The labels of `setColoredLabelFormats` hold no `%`. -/
theorem setColoredLabelFormats_no_verb (l : Logger) :
    '%' ∉ (setColoredLabelFormats l).infoLabel ∧ '%' ∉ (setColoredLabelFormats l).warnLabel ∧
    '%' ∉ (setColoredLabelFormats l).errorLabel ∧ '%' ∉ (setColoredLabelFormats l).fatalLabel ∧
    '%' ∉ (setColoredLabelFormats l).debugLabel ∧ '%' ∉ (setColoredLabelFormats l).traceLabel := by
  simp only [setColoredLabelFormats]
  decide

/-- The labels of every logger `NewStdLogger` builds hold no `%`. -/
theorem NewStdLogger_no_verb (env : Env) (time debug trace colors pid : Bool) (opts : List Bool) :
    '%' ∉ (NewStdLogger env time debug trace colors pid opts).1.debugLabel ∧
    '%' ∉ (NewStdLogger env time debug trace colors pid opts).1.traceLabel ∧
    (NewStdLogger env time debug trace colors pid opts).1.debug = debug ∧
    (NewStdLogger env time debug trace colors pid opts).1.trace = trace := by
  unfold NewStdLogger
  cases colors
  · exact ⟨(setPlainLabelFormats_no_verb _).2.2.2.2.1, (setPlainLabelFormats_no_verb _).2.2.2.2.2,
      rfl, rfl⟩
  · exact ⟨(setColoredLabelFormats_no_verb _).2.2.2.2.1,
      (setColoredLabelFormats_no_verb _).2.2.2.2.2, rfl, rfl⟩

/-- C11. For every logger whose labels hold no `%` (the labels of
`setPlainLabelFormats` and of `setColoredLabelFormats` hold none), every
printer of verbs, format and operands: `Debugf` makes no call of `Write` on
the sink when `debug` is false, and `Tracef` none when `trace` is false; when
the flag is true the method makes exactly one call of `Write`, and the buffer
written is the header of `log.Logger`, the label, the text `fmt.Sprintf` gives
for the format and the operands, and a newline when that text does not end in
one, so that the buffer ends in a newline. The plain labels are `[DBG] ` and
`[TRC] `. -/
theorem debugf_tracef_gated_by_flags {σ : Type} (P : Printer σ) (l : Logger) (out : StdLog)
    (now : Time) (format : GoString) (s : σ) (hd : '%' ∉ l.debugLabel)
    (ht : '%' ∉ l.traceLabel) :
    Debugf P l out now format s
      = (if l.debug = true then
          [endLine (formatHeader out.pre out.flag now ++ l.debugLabel ++ sprintf P format s)]
        else []) ∧
    Tracef P l out now format s
      = (if l.trace = true then
          [endLine (formatHeader out.pre out.flag now ++ l.traceLabel ++ sprintf P format s)]
        else []) ∧
    (l.debug = false → Debugf P l out now format s = []) ∧
    (l.trace = false → Tracef P l out now format s = []) ∧
    (l.debug = true → ∃ nl, (nl = [] ∨ nl = ['\n']) ∧
      Debugf P l out now format s
        = [formatHeader out.pre out.flag now ++ l.debugLabel ++ sprintf P format s ++ nl] ∧
      (formatHeader out.pre out.flag now ++ l.debugLabel ++ sprintf P format s ++ nl).getLast?
        = some '\n') ∧
    (l.trace = true → ∃ nl, (nl = [] ∨ nl = ['\n']) ∧
      Tracef P l out now format s
        = [formatHeader out.pre out.flag now ++ l.traceLabel ++ sprintf P format s ++ nl] ∧
      (formatHeader out.pre out.flag now ++ l.traceLabel ++ sprintf P format s ++ nl).getLast?
        = some '\n') ∧
    (setPlainLabelFormats l).debugLabel = ['[', 'D', 'B', 'G', ']', ' '] ∧
    (setPlainLabelFormats l).traceLabel = ['[', 'T', 'R', 'C', ']', ' '] := by
  have key : ∀ label : GoString, '%' ∉ label → ∃ nl, (nl = [] ∨ nl = ['\n']) ∧
      out.Printf P now (label ++ format) s
        = formatHeader out.pre out.flag now ++ label ++ sprintf P format s ++ nl ∧
      (formatHeader out.pre out.flag now ++ label ++ sprintf P format s ++ nl).getLast?
        = some '\n' := by
    intro label hl
    have hp := printf_labelled P out now label hl format s
    have hlast := endLine_last (formatHeader out.pre out.flag now ++ label ++ sprintf P format s)
    rcases endLine_cases (formatHeader out.pre out.flag now ++ label ++ sprintf P format s)
      with he | he
    · refine ⟨[], Or.inl rfl, ?_, ?_⟩
      · rw [List.append_nil, hp, he]
      · rw [List.append_nil, ← he]; exact hlast
    · refine ⟨['\n'], Or.inr rfl, ?_, ?_⟩
      · rw [hp, he]
      · rw [← he]; exact hlast
  refine ⟨?_, ?_, ?_, ?_, ?_, ?_, rfl, rfl⟩
  · unfold Debugf
    rw [printf_labelled P out now _ hd]
  · unfold Tracef
    rw [printf_labelled P out now _ ht]
  · intro h
    unfold Debugf
    rw [h]; rfl
  · intro h
    unfold Tracef
    rw [h]; rfl
  · intro h
    obtain ⟨nl, hnl, hp, hlast⟩ := key l.debugLabel hd
    refine ⟨nl, hnl, ?_, hlast⟩
    unfold Debugf
    rw [h, if_pos rfl, hp]
  · intro h
    obtain ⟨nl, hnl, hp, hlast⟩ := key l.traceLabel ht
    refine ⟨nl, hnl, ?_, hlast⟩
    unfold Tracef
    rw [h, if_pos rfl, hp]

set_option maxRecDepth 8192 in
/-- Witness of C11, after the two tests of `log_test.go`. The logger of
`NewStdLogger(true, true, true, false, true)` writes one line for
`Debugf("This is a debug log")`, in which `[DBG] ` is followed at once by the
message; the logger of `NewStdLogger(true, false, false, false, true)` writes
nothing. -/
theorem debugf_tracef_gated_by_flags_witness :
    '%' ∉ (NewStdLogger okEnv true true true false true []).1.debugLabel ∧
    '%' ∉ (NewStdLogger okEnv true true true false true []).1.traceLabel ∧
    (NewStdLogger okEnv true true true false true []).1.debug = true ∧
    (NewStdLogger okEnv true false false false true []).1.debug = false ∧
    Debugf plainPrinter (NewStdLogger okEnv true true true false true []).1
        (NewStdLogger okEnv true true true false true []).2 ⟨2024, 5, 6, 7, 8, 9, 123456789⟩
        "This is a debug log".toList ()
      = ["[42] 2024/05/06 07:08:09.123456 [DBG] This is a debug log\n".toList] ∧
    Tracef plainPrinter (NewStdLogger okEnv true true true false true []).1
        (NewStdLogger okEnv true true true false true []).2 ⟨2024, 5, 6, 7, 8, 9, 123456789⟩
        "This is a trace log".toList ()
      = ["[42] 2024/05/06 07:08:09.123456 [TRC] This is a trace log\n".toList] ∧
    Debugf plainPrinter (NewStdLogger okEnv true false false false true []).1
        (NewStdLogger okEnv true false false false true []).2 ⟨2024, 5, 6, 7, 8, 9, 123456789⟩
        "This debug log should not be printed".toList () = [] ∧
    Tracef plainPrinter (NewStdLogger okEnv true false false false true []).1
        (NewStdLogger okEnv true false false false true []).2 ⟨2024, 5, 6, 7, 8, 9, 123456789⟩
        "This trace log should not be printed".toList () = [] :=
  ⟨by decide, by decide, by decide, by decide,
    (debugf_tracef_gated_by_flags plainPrinter (NewStdLogger okEnv true true true false true []).1
      (NewStdLogger okEnv true true true false true []).2 ⟨2024, 5, 6, 7, 8, 9, 123456789⟩
      "This is a debug log".toList () (by decide) (by decide)).1.trans (by decide),
    (debugf_tracef_gated_by_flags plainPrinter (NewStdLogger okEnv true true true false true []).1
      (NewStdLogger okEnv true true true false true []).2 ⟨2024, 5, 6, 7, 8, 9, 123456789⟩
      "This is a trace log".toList () (by decide) (by decide)).2.1.trans (by decide),
    (debugf_tracef_gated_by_flags plainPrinter (NewStdLogger okEnv true false false false true []).1
      (NewStdLogger okEnv true false false false true []).2 ⟨2024, 5, 6, 7, 8, 9, 123456789⟩
      "This debug log should not be printed".toList () (by decide) (by decide)).2.2.1 (by decide),
    (debugf_tracef_gated_by_flags plainPrinter (NewStdLogger okEnv true false false false true []).1
      (NewStdLogger okEnv true false false false true []).2 ⟨2024, 5, 6, 7, 8, 9, 123456789⟩
      "This trace log should not be printed".toList () (by decide) (by decide)).2.2.2.1
      (by decide)⟩

/-! ## Lemmas on the stamp of a backup and its parsing -/

theorem isDigit_digitChar (d : Nat) (h : d < 10) : isDigit (Nat.digitChar d) = true := by
  interval_cases d <;> rfl

theorem digitVal_digitChar (d : Nat) (h : d < 10) : digitVal (Nat.digitChar d) = d := by
  interval_cases d <;> rfl

theorem digitChar_ne_dot (d : Nat) (h : d < 10) : Nat.digitChar d ≠ '.' := by
  interval_cases d <;> decide

theorem digitChar_ne_slash (d : Nat) (h : d < 10) : Nat.digitChar d ≠ '/' := by
  interval_cases d <;> decide

theorem digitsFixed_all (w n : Nat) :
    ∀ c ∈ digitsFixed w n, isDigit c = true ∧ c ≠ '.' ∧ c ≠ '/' := by
  induction w generalizing n with
  | zero => intro c hc; simp [digitsFixed] at hc
  | succ w ih =>
    intro c hc
    rw [digitsFixed, List.mem_append, List.mem_singleton] at hc
    rcases hc with hc | hc
    · exact ih _ c hc
    · subst hc
      have h : n % 10 < 10 := Nat.mod_lt _ (by norm_num)
      exact ⟨isDigit_digitChar _ h, digitChar_ne_dot _ h, digitChar_ne_slash _ h⟩

theorem digitsVal_append (ds : GoString) (c : Char) :
    digitsVal (ds ++ [c]) = digitsVal ds * 10 + digitVal c := by
  simp [digitsVal, List.foldl_append]

theorem digitsVal_digitsFixed (w n : Nat) (h : n < 10 ^ w) : digitsVal (digitsFixed w n) = n := by
  induction w generalizing n with
  | zero =>
    have : n = 0 := by simpa using h
    subst this; rfl
  | succ w ih =>
    have hq : n / 10 < 10 ^ w := by
      rw [Nat.div_lt_iff_lt_mul (by norm_num)]; rw [pow_succ] at h; exact h
    rw [digitsFixed, digitsVal_append, ih _ hq, digitVal_digitChar _ (Nat.mod_lt _ (by norm_num))]
    omega

theorem digitsFixed_two (n : Nat) :
    digitsFixed 2 n = [Nat.digitChar (n / 10 % 10), Nat.digitChar (n % 10)] := by
  simp [digitsFixed]

theorem digitsFixed_four (n : Nat) :
    digitsFixed 4 n = [Nat.digitChar (n / 10 / 10 / 10 % 10), Nat.digitChar (n / 10 / 10 % 10),
      Nat.digitChar (n / 10 % 10), Nat.digitChar (n % 10)] := by
  simp [digitsFixed]

theorem getLongYear_digitsFixed (n : Nat) (h : n < 10000) (rest : GoString) :
    getLongYear (digitsFixed 4 n ++ rest) = some (n, rest) := by
  have h10 : ∀ k : Nat, k % 10 < 10 := fun k => Nat.mod_lt _ (by norm_num)
  rw [digitsFixed_four]
  simp only [List.cons_append, List.nil_append, getLongYear, isDigit_digitChar _ (h10 _),
    digitVal_digitChar _ (h10 _), Bool.and_self, if_true]
  congr 2
  omega

theorem getnum_digitsFixed (n : Nat) (h : n < 100) (rest : GoString) ( fixed : Bool) :
    getnum (digitsFixed 2 n ++ rest) fixed = some (n, rest) := by
  have h10 : ∀ k : Nat, k % 10 < 10 := fun k => Nat.mod_lt _ (by norm_num)
  rw [digitsFixed_two]
  simp only [List.cons_append, List.nil_append, getnum, isDigit_digitChar _ (h10 _),
    digitVal_digitChar _ (h10 _), Bool.not_true, if_true, Bool.false_eq_true, if_false]
  congr 2
  omega

theorem getFrac_digitsFixed (n : Nat) (h : n < 10 ^ 9) :
    getFrac ('.' :: digitsFixed 9 n) = (n, []) := by
  have hall := digitsFixed_all 9 n
  have hlen := digitsFixed_length 9 n
  have hval := digitsVal_digitsFixed 9 n h
  generalize digitsFixed 9 n = ds at hall hlen hval
  cases ds with
  | nil => simp at hlen
  | cons d rest =>
    have htw : (d :: rest).takeWhile isDigit = d :: rest :=
      List.takeWhile_eq_self_iff.mpr (fun c hc => (hall c hc).1)
    have hdw : (d :: rest).dropWhile isDigit = [] :=
      List.dropWhile_eq_nil_iff.mpr (fun c hc => (hall c hc).1)
    have hd : isDigit d = true := (hall d (List.mem_cons_self _ _)).1
    have htake : (d :: rest).take 9 = d :: rest := List.take_of_length_le (by omega)
    simp only [getFrac, hd, true_or, and_self, if_true, htw, hdw, htake, hval, hlen]
    simp

theorem replaceN_zero (old new : Char) (s : GoString) : replaceN old new 0 s = s := by
  cases s <;> rfl

theorem replaceN_skip (old new : Char) (k : Nat) (ds rest : GoString) (h : old ∉ ds) :
    replaceN old new (k + 1) (ds ++ old :: rest) = ds ++ new :: replaceN old new k rest := by
  induction ds with
  | nil => simp [replaceN]
  | cons c ds ih =>
    have hc : c ≠ old := fun e => h (by simp [e])
    have hds : old ∉ ds := fun m => h (List.mem_cons_of_mem _ m)
    rw [List.cons_append, replaceN, if_neg hc, ih hds]
    rfl

theorem dot_not_mem_digitsFixed (w n : Nat) : '.' ∉ digitsFixed w n :=
  fun h => (digitsFixed_all w n _ h).2.1 rfl

theorem hasPrefix_append (p r : GoString) : hasPrefix (p ++ r) p = true := by
  induction p with
  | nil => cases r <;> rfl
  | cons c p ih => simp [hasPrefix, ih]

theorem cutPrefix_append (p r : GoString) : cutPrefix (p ++ r) p = some r := by
  induction p with
  | nil => cases r <;> rfl
  | cons c p ih => simp [cutPrefix, ih]

theorem daysIn_le (month year : Nat) : daysIn month year ≤ 31 := by
  unfold daysIn
  split
  · split <;> omega
  · split <;> omega

/-- The stamp of a valid reading, with its first five periods replaced by
colons. -/
theorem replaceN_backupStamp (t : Time) (ht : t.valid) :
    replaceN '.' ':' 5 (backupStamp t)
      = digitsFixed 4 t.year ++ ':' :: (digitsFixed 2 t.month ++ ':' :: (digitsFixed 2 t.day
        ++ ':' :: (digitsFixed 2 t.hour ++ ':' :: (digitsFixed 2 t.minute
        ++ ':' :: (digitsFixed 2 t.second ++ '.' :: digitsFixed 9 t.nanosecond))))) := by
  obtain ⟨hy, hm1, hm, hd1, hd, hh, hmi, hs, hn⟩ := ht
  have hd31 := daysIn_le t.month t.year
  have e4 : fmtZeroPad 4 t.year = digitsFixed 4 t.year := if_pos (by norm_num; omega)
  have em : fmtZeroPad 2 t.month = digitsFixed 2 t.month := if_pos (by norm_num; omega)
  have ed : fmtZeroPad 2 t.day = digitsFixed 2 t.day := if_pos (by norm_num; omega)
  have eh : fmtZeroPad 2 t.hour = digitsFixed 2 t.hour := if_pos (by norm_num; omega)
  have emi : fmtZeroPad 2 t.minute = digitsFixed 2 t.minute := if_pos (by norm_num; omega)
  have es : fmtZeroPad 2 t.second = digitsFixed 2 t.second := if_pos (by norm_num; omega)
  have en : fmtZeroPad 9 t.nanosecond = digitsFixed 9 t.nanosecond := if_pos (by norm_num; omega)
  simp only [backupStamp, e4, em, ed, eh, emi, es, en, List.append_assoc, List.singleton_append,
    List.cons_append, List.nil_append]
  rw [replaceN_skip _ _ _ _ _ (dot_not_mem_digitsFixed _ _),
    replaceN_skip _ _ _ _ _ (dot_not_mem_digitsFixed _ _),
    replaceN_skip _ _ _ _ _ (dot_not_mem_digitsFixed _ _),
    replaceN_skip _ _ _ _ _ (dot_not_mem_digitsFixed _ _),
    replaceN_skip _ _ _ _ _ (dot_not_mem_digitsFixed _ _), replaceN_zero]

theorem timeParse_backupStamp (t : Time) (ht : t.valid) :
    timeParse (replaceN '.' ':' 5 (backupStamp t)) = some t := by
  rw [replaceN_backupStamp t ht]
  obtain ⟨hy, hm1, hm, hd1, hd, hh, hmi, hs, hn⟩ := ht
  have hd31 := daysIn_le t.month t.year
  have c1 : ¬(t.month = 0 ∨ 12 < t.month) := by omega
  have c2 : ¬(24 ≤ t.hour) := by omega
  have c3 : ¬(60 ≤ t.minute) := by omega
  have c4 : ¬(60 ≤ t.second) := by omega
  have c5 : ¬(t.day < 1 ∨ daysIn t.month t.year < t.day) := by omega
  simp only [timeParse, getLongYear_digitsFixed t.year (by omega),
    getnum_digitsFixed t.month (by omega), getnum_digitsFixed t.day (by omega),
    getnum_digitsFixed t.hour (by omega), getnum_digitsFixed t.minute (by omega),
    getnum_digitsFixed t.second (by omega), getFrac_digitsFixed t.nanosecond (by norm_num; omega),
    skipColon, c1, c2, c3, c4, c5, if_true, if_false, ne_eq, not_true_eq_false,
    Option.bind_eq_bind, Option.some_bind, Option.pure_def]

theorem filepathBase_of_reverse (path r : GoString) (c : Char) (hc : c ≠ '/')
    (h : path.reverse = c :: r) :
    filepathBase path = (c :: r.takeWhile (fun c => c ≠ '/')).reverse := by
  have hne : path ≠ [] := by
    intro e
    rw [e] at h
    simp at h
  unfold filepathBase
  rw [if_neg hne]
  simp only [h, List.dropWhile_cons, hc, decide_False, Bool.false_eq_true, if_false,
    List.reverse_reverse, List.takeWhile_cons, ne_eq, not_false_eq_true, decide_True, if_true]
  rw [if_neg (by simp)]

theorem filepathBase_append (fname suf : GoString) (hne : fname ≠ [])
    (hsep : fname.getLast? ≠ some '/') (hs : ∀ c ∈ suf, c ≠ '/') :
    filepathBase (fname ++ suf) = filepathBase fname ++ suf := by
  obtain ⟨c, r, hr⟩ : ∃ c r, fname.reverse = c :: r := by
    cases hrev : fname.reverse with
    | nil => exact absurd (List.reverse_eq_nil_iff.mp hrev) hne
    | cons c r => exact ⟨c, r, rfl⟩
  have hc : c ≠ '/' := by
    intro e
    apply hsep
    rw [List.getLast?_eq_head?_reverse, hr, e]
    rfl
  rw [filepathBase_of_reverse fname r c hc hr]
  cases hsuf : suf.reverse with
  | nil =>
    have : suf = [] := List.reverse_eq_nil_iff.mp hsuf
    subst this
    rw [List.append_nil, List.append_nil]
    exact filepathBase_of_reverse fname r c hc hr
  | cons d sr =>
    have hall : ∀ x ∈ d :: sr, x ≠ '/' := by
      intro x hx
      rw [← hsuf] at hx
      exact hs x (List.mem_reverse.mp hx)
    have hd : d ≠ '/' := hall d (List.mem_cons_self _ _)
    have hrev : (fname ++ suf).reverse = d :: (sr ++ c :: r) := by
      rw [List.reverse_append, hsuf, hr]; rfl
    rw [filepathBase_of_reverse (fname ++ suf) _ d hd hrev]
    have htw : (sr ++ c :: r).takeWhile (fun c => decide (c ≠ '/'))
        = sr ++ (c :: r).takeWhile (fun c => decide (c ≠ '/')) :=
      List.takeWhile_append_of_pos (fun x hx => by
        simpa using hall x (List.mem_cons_of_mem _ hx))
    rw [htw, List.takeWhile_cons, if_pos (by simpa using hc)]
    have hsr : suf = (d :: sr).reverse := by rw [← hsuf, List.reverse_reverse]
    rw [hsr]
    simp

theorem mem_insertEntry (e : DirEntry) (dir : List DirEntry) : e ∈ insertEntry e dir := by
  induction dir with
  | nil => simp [insertEntry]
  | cons x xs ih =>
    unfold insertEntry
    split
    · exact List.mem_cons_of_mem _ ih
    · exact List.mem_cons_self _ _

theorem backupName_eq (fname : GoString) (t : Time) :
    backupName fname t = fname ++ '.' :: backupStamp t := by
  simp [backupName, backupStamp, List.append_assoc]

theorem backupStamp_no_separator (t : Time) (ht : t.valid) : ∀ c ∈ backupStamp t, c ≠ '/' := by
  obtain ⟨hy, hm1, hm, hd1, hd, hh, hmi, hs, hn⟩ := ht
  have hd31 := daysIn_le t.month t.year
  have e4 : fmtZeroPad 4 t.year = digitsFixed 4 t.year := if_pos (by norm_num; omega)
  have em : fmtZeroPad 2 t.month = digitsFixed 2 t.month := if_pos (by norm_num; omega)
  have ed : fmtZeroPad 2 t.day = digitsFixed 2 t.day := if_pos (by norm_num; omega)
  have eh : fmtZeroPad 2 t.hour = digitsFixed 2 t.hour := if_pos (by norm_num; omega)
  have emi : fmtZeroPad 2 t.minute = digitsFixed 2 t.minute := if_pos (by norm_num; omega)
  have es : fmtZeroPad 2 t.second = digitsFixed 2 t.second := if_pos (by norm_num; omega)
  have en : fmtZeroPad 9 t.nanosecond = digitsFixed 9 t.nanosecond := if_pos (by norm_num; omega)
  have hdot : ('.' : Char) ≠ '/' := by decide
  intro c hc
  simp only [backupStamp, e4, em, ed, eh, emi, es, en, List.mem_append, List.mem_singleton] at hc
  rcases hc with ((((((((((((h | h) | h) | h) | h) | h) | h) | h) | h) | h) | h) | h) | h) <;>
    first
    | exact (digitsFixed_all _ _ c h).2.2
    | exact h ▸ hdot

/-- The name `base.stamp` of a valid reading passes the tests `logPurge` makes
on an entry, for every base name. -/
theorem isBackup_base_stamp (logBase : GoString) (t : Time) (ht : t.valid) :
    logBase ++ '.' :: backupStamp t ≠ logBase ∧
    hasPrefix (logBase ++ '.' :: backupStamp t) logBase = true ∧
    cutPrefix (logBase ++ '.' :: backupStamp t) (logBase ++ ['.']) = some (backupStamp t) ∧
    isBackup logBase ⟨logBase ++ '.' :: backupStamp t, false⟩ = true := by
  have hne : logBase ++ '.' :: backupStamp t ≠ logBase := by
    intro e
    have := congrArg List.length e
    simp at this
  have hp := hasPrefix_append logBase ('.' :: backupStamp t)
  have hcut : cutPrefix (logBase ++ '.' :: backupStamp t) (logBase ++ ['.'])
      = some (backupStamp t) := by
    have := cutPrefix_append (logBase ++ ['.']) (backupStamp t)
    rwa [List.append_assoc, List.singleton_append] at this
  refine ⟨hne, hp, hcut, ?_⟩
  unfold isBackup
  rw [if_neg (by simp [hne, hp])]
  simp only [hcut, timeParse_backupStamp t ht]
  rfl

/-- C12. For every path `fname` of a log file whose last element is not empty
(the path is not empty and does not end in a separator) and every reading `t`
of the clock that is a date of the calendar with a year from 0 to 9999 and a
time of day: the name under which the rotation of `Write` saves the file,
`backupName fname t`, is listed in the directory under the base name of the
log, a period and the stamp `%04d.%02d.%02d.%02d.%02d.%02d.%09d`; that entry
differs from the base name, has it as a beginning, `strings.CutPrefix` with
the base name and a period succeeds and leaves the stamp, the stamp with its
first five periods replaced by colons is parsed by `time.Parse` against
`2006:01:02:15:04:05.999999999` (to the reading `t` itself), and therefore
the first loop of `logPurge` takes the entry for a backup: it does so in the
directory as the rename leaves it. The tests on the name hold for every base
name. -/
theorem backupName_recognised_by_logPurge (fname : GoString) (t : Time) (hne : fname ≠ [])
    (hsep : fname.getLast? ≠ some '/') (ht : t.valid) :
    filepathBase (backupName fname t) = filepathBase fname ++ ['.'] ++ backupStamp t ∧
    filepathBase (backupName fname t) ≠ filepathBase fname ∧
    hasPrefix (filepathBase (backupName fname t)) (filepathBase fname) = true ∧
    cutPrefix (filepathBase (backupName fname t)) (filepathBase fname ++ ['.'])
      = some (backupStamp t) ∧
    timeParse (replaceN '.' ':' 5 (backupStamp t)) = some t ∧
    isBackup (filepathBase fname) ⟨filepathBase (backupName fname t), false⟩ = true ∧
    (∀ w : World, filepathBase (backupName fname t)
      ∈ scanBackups (filepathBase fname) (w.renamed fname (backupName fname t)).dir) ∧
    (∀ logBase : GoString, backupName logBase t ≠ logBase ∧
      hasPrefix (backupName logBase t) logBase = true ∧
      cutPrefix (backupName logBase t) (logBase ++ ['.']) = some (backupStamp t) ∧
      isBackup logBase ⟨backupName logBase t, false⟩ = true) := by
  have hbase : filepathBase (backupName fname t) = filepathBase fname ++ '.' :: backupStamp t := by
    rw [backupName_eq]
    refine filepathBase_append fname _ hne hsep ?_
    intro c hc
    rcases List.mem_cons.mp hc with h | h
    · rw [h]; decide
    · exact backupStamp_no_separator t ht c h
  obtain ⟨h1, h2, h3, h4⟩ := isBackup_base_stamp (filepathBase fname) t ht
  refine ⟨?_, ?_, ?_, ?_, timeParse_backupStamp t ht, ?_, ?_, ?_⟩
  · rw [hbase, List.append_assoc, List.singleton_append]
  · rw [hbase]; exact h1
  · rw [hbase]; exact h2
  · rw [hbase]; exact h3
  · rw [hbase]; exact h4
  · intro w
    have hmem : (⟨filepathBase (backupName fname t), false⟩ : DirEntry)
        ∈ (w.renamed fname (backupName fname t)).dir := mem_insertEntry _ _
    have hb : isBackup (filepathBase fname) ⟨filepathBase (backupName fname t), false⟩ = true := by
      rw [hbase]; exact h4
    rw [scanBackups_eq]
    exact List.mem_map_of_mem (fun e => e.name) (List.mem_filter.mpr ⟨hmem, hb⟩)
  · intro logBase
    have h := isBackup_base_stamp logBase t ht
    rw [← backupName_eq] at h
    exact h

set_option maxRecDepth 8192 in
/-- Witness of C12: the log `app.log` and the reading of 29 February 2024,
23:59:59.000000001; the name is
`app.log.2024.02.29.23.59.59.000000001`. -/
theorem backupName_recognised_by_logPurge_witness :
    appLog ≠ [] ∧ appLog.getLast? ≠ some '/' ∧
    Time.valid ⟨2024, 2, 29, 23, 59, 59, 1⟩ ∧
    backupName appLog ⟨2024, 2, 29, 23, 59, 59, 1⟩
      = "app.log.2024.02.29.23.59.59.000000001".toList ∧
    isBackup (filepathBase appLog)
      ⟨filepathBase (backupName appLog ⟨2024, 2, 29, 23, 59, 59, 1⟩), false⟩ = true ∧
    timeParse (replaceN '.' ':' 5 (backupStamp ⟨2024, 2, 29, 23, 59, 59, 1⟩))
      = some ⟨2024, 2, 29, 23, 59, 59, 1⟩ :=
  ⟨by decide, by decide, by unfold Time.valid; decide, by decide,
    (backupName_recognised_by_logPurge appLog ⟨2024, 2, 29, 23, 59, 59, 1⟩ (by decide) (by decide)
      (by unfold Time.valid; decide)).2.2.2.2.2.1,
    (backupName_recognised_by_logPurge appLog ⟨2024, 2, 29, 23, 59, 59, 1⟩ (by decide) (by decide)
      (by unfold Time.valid; decide)).2.2.2.2.1⟩

end FileLog
